import Mathlib

/-!
# Verification of the dev-tools text-processing core

This file gives a shallow embedding, in Lean 4, of the three algorithmic
components of the `dev-tools` repository — the JSON structural differ
(`src/lib/json-diff.ts`), the PHP-array parser/serializer
(`src/lib/php-parser.ts`) and the MySQL DDL parser — together with proofs
about the claims of the specification.

Modelling conventions:

* JavaScript strings are modelled as Lean `String`s / `List Char`; the
  handful of regular expressions used by the source are modelled by
  hand-written scanners with the same matching semantics (leftmost match,
  greedy repetition, ordered alternation, ASCII `\w`/`\d`/`\s`/`\b`).
* JavaScript numbers are modelled as `Int`.  Every numeric literal exercised
  by the claims settled here is an integer; floating-point formatting,
  `NaN` and `Infinity` payloads are outside the model.
* Mutable accumulator arrays (`diffs.push(...)`) are modelled by threading
  the accumulated list through the functions and appending.
* Recursive functions whose termination is not structural carry an explicit
  fuel argument (always the first, a `Nat`); the public wrappers supply a
  fuel that is provably sufficient, so the fuel-exhaustion branches are
  unreachable on the wrappers' arguments.  Fuelled structural recursion is
  used so that every definition evaluates inside the kernel.
-/

set_option maxRecDepth 4000

/-! ## JavaScript character classes and generic string helpers -/

/-- The backslash character. -/
def bslashC : Char := Char.ofNat 92

/-- The single-quote character. -/
def squoteC : Char := Char.ofNat 39

/-- The double-quote character. -/
def dquoteC : Char := Char.ofNat 34

/-- The backtick character. -/
def btickC : Char := Char.ofNat 96

/-- The opening curly-brace character. -/
def lcurlC : Char := Char.ofNat 123

/-- The closing curly-brace character. -/
def rcurlC : Char := Char.ofNat 125

/-- JavaScript's `\w` character class (ASCII letters, digits, underscore). -/
def isWordChar (c : Char) : Bool := c.isAlpha || c.isDigit || c == '_'

/-- JavaScript's `\d` character class. -/
def isDigitChar (c : Char) : Bool := c.isDigit

/-- JavaScript's `\s` character class (WhiteSpace ∪ LineTerminator). -/
def isSpaceChar (c : Char) : Bool :=
  let n := c.toNat
  n == 9 || n == 10 || n == 11 || n == 12 || n == 13 || n == 32 || n == 160 ||
  n == 0x1680 || (decide (0x2000 ≤ n) && decide (n ≤ 0x200A)) || n == 0x2028 ||
  n == 0x2029 || n == 0x202F || n == 0x205F || n == 0x3000 || n == 0xFEFF

/-- JavaScript's line-terminator class (what `.` refuses to match and `$`
with the `m` flag stops before). -/
def isLineTermChar (c : Char) : Bool :=
  let n := c.toNat
  n == 10 || n == 13 || n == 0x2028 || n == 0x2029

/-- `String.prototype.trim`. -/
def jsTrimL (l : List Char) : List Char :=
  ((l.dropWhile isSpaceChar).reverse.dropWhile isSpaceChar).reverse

/-- `String.prototype.split` with a single-character separator. -/
def splitOnChar (sep : Char) (l : List Char) : List (List Char) :=
  l.foldr
    (fun c acc =>
      match acc with
      | [] => [[c]]
      | cur :: rest => if c == sep then [] :: cur :: rest else (c :: cur) :: rest)
    [[]]

/-- Match a literal pattern at the head of the input; returns the remainder. -/
def matchLit : List Char → List Char → Option (List Char)
  | [], rest => some rest
  | _ :: _, [] => none
  | p :: ps, c :: cs => if p == c then matchLit ps cs else none

/-- Match a literal ASCII pattern case-insensitively at the head of the
input (JavaScript's `i` flag); returns the remainder. -/
def matchCI : List Char → List Char → Option (List Char)
  | [], rest => some rest
  | _ :: _, [] => none
  | p :: ps, c :: cs => if p.toLower == c.toLower then matchCI ps cs else none

/-- Does `pat` occur as a contiguous substring? -/
def hasSubstr (pat : List Char) : List Char → Bool
  | [] => (matchLit pat []).isSome
  | c :: cs => (matchLit pat (c :: cs)).isSome || hasSubstr pat (c :: cs |>.tail)

/-- Consume one-or-more `\s` characters (`\s+`); greedy. -/
def wsPlus : List Char → Option (List Char)
  | [] => none
  | c :: cs => if isSpaceChar c then some ((c :: cs).dropWhile isSpaceChar) else none

/-- Consume a `\w+` run; returns `(run, rest)` with a nonempty run. -/
def wordRun : List Char → Option (List Char × List Char)
  | [] => none
  | c :: cs =>
    if isWordChar c then
      some ((c :: cs).takeWhile isWordChar, (c :: cs).dropWhile isWordChar)
    else none

/-- Replace all (non-overlapping, left-to-right) occurrences of a literal
pattern, as `String.prototype.replace` with a `g`-flagged literal regex.
The fuel is the input length. -/
def replaceAllLitGo (pat rep : List Char) : Nat → List Char → List Char
  | _, [] => []
  | 0, cs => cs
  | Nat.succ f, c :: cs =>
    match matchLit pat (c :: cs) with
    | some rest => rep ++ replaceAllLitGo pat rep f rest
    | none => c :: replaceAllLitGo pat rep f cs

/-- String-level wrapper for `replaceAllLitGo`. -/
def replaceAllLit (pat rep s : String) : String :=
  ⟨replaceAllLitGo pat.data rep.data s.data.length s.data⟩

/-- Word-ness of an optional character (out-of-string counts as non-word),
used for `\b` boundary tests. -/
def wordness : Option Char → Bool
  | none => false
  | some c => isWordChar c

/-- A `\b` boundary holds between two (optional) characters iff exactly one
side is a word character. -/
def isBoundary (a b : Option Char) : Bool := wordness a != wordness b

/-- Replace all occurrences of `\bPAT\b` for a literal nonempty pattern,
scanning left to right over the original string (as the JS regex engine
does).  `prev` is the character preceding the scan position. -/
def replaceWBGo (pat rep : List Char) : Nat → Option Char → List Char → List Char
  | _, _, [] => []
  | 0, _, cs => cs
  | Nat.succ f, prev, c :: cs =>
    match matchLit pat (c :: cs) with
    | some rest =>
      if isBoundary prev (some c) && isBoundary (pat.getLast? <|> some c) rest.head? then
        rep ++ replaceWBGo pat rep f (pat.getLast? <|> some c) rest
      else c :: replaceWBGo pat rep f (some c) cs
    | none => c :: replaceWBGo pat rep f (some c) cs

/-- String-level wrapper for `replaceWBGo`. -/
def replaceWB (pat rep s : String) : String :=
  ⟨replaceWBGo pat.data rep.data s.data.length none s.data⟩

/-- Stable insertion of one element into an already-sorted prefix, under a
JS comparator (`c y x ≤ 0` keeps `y` before `x`). -/
def insertStable {α : Type} (c : α → α → Int) : List α → α → List α
  | [], x => [x]
  | y :: ys, x => if c y x ≤ 0 then y :: insertStable c ys x else x :: y :: ys

/-- `Array.prototype.sort` with a comparator (stable, as specified). -/
def jsSortStable {α : Type} (c : α → α → Int) (l : List α) : List α :=
  l.foldl (insertStable c) []

/-- The numeric value of a run of ASCII digits. -/
def digitsVal (l : List Char) : Nat :=
  l.foldl (fun a c => a * 10 + (c.toNat - 48)) 0

/-- ASCII lower-casing of a string (`String.prototype.toLowerCase` for the
ASCII inputs that reach it here). -/
def asciiLower (s : String) : String := ⟨s.data.map Char.toLower⟩

/-- `'....'.repeat(n)`. -/
def strRepeat (s : String) (n : Nat) : String := String.join (List.replicate n s)

/-- Does the string match `/^\d+$/`? -/
def isAllDigits (s : String) : Bool := s.data ≠ [] && s.data.all isDigitChar

namespace JsonDiff

/-! ## Data model of `src/lib/json-diff.ts` -/

/-- `JsonValue` from `src/types/json-diff.ts`: string, number, boolean,
null, array or object.  Objects keep their key insertion order; JavaScript
numbers are modelled as integers. -/
inductive JsonValue where
  | null
  | bool (b : Bool)
  | num (n : Int)
  | str (s : String)
  | arr (elems : List JsonValue)
  | obj (entries : List (String × JsonValue))

mutual
/-- Structural size of a `JsonValue`, used as recursion fuel. -/
def jsize : JsonValue → Nat
  | .null => 1
  | .bool _ => 1
  | .num _ => 1
  | .str _ => 1
  | .arr l => 1 + jsizeL l
  | .obj l => 1 + jsizeE l
/-- Structural size of a list of values. -/
def jsizeL : List JsonValue → Nat
  | [] => 0
  | v :: vs => 1 + jsize v + jsizeL vs
/-- Structural size of an entry list. -/
def jsizeE : List (String × JsonValue) → Nat
  | [] => 0
  | (_, v) :: es => 1 + jsize v + jsizeE es
end

/-- `DiffMode`. -/
inductive DiffMode where
  | strict
  | loose
deriving DecidableEq, BEq

/-- `DiffType`. -/
inductive DiffType where
  | added
  | removed
  | modified
  | unchanged
  | order_changed
deriving DecidableEq, BEq

/-- `DiffItem`; absent optional fields are `none`. -/
structure DiffItem where
  path : String
  type : DiffType
  oldValue : Option JsonValue := none
  newValue : Option JsonValue := none
  oldIndex : Option Int := none
  newIndex : Option Int := none

/-- `DiffResult`. -/
structure DiffResult where
  isEqual : Bool
  diffs : List DiffItem

/-- `getValueType`: the coarse type tag (`null`, `array`, or `typeof`). -/
def getValueType : JsonValue → String
  | .null => "null"
  | .arr _ => "array"
  | .obj _ => "object"
  | .bool _ => "boolean"
  | .num _ => "number"
  | .str _ => "string"

/-- Is the value a non-null JavaScript object (`typeof x === 'object'`)? -/
def isObjLike : JsonValue → Bool
  | .arr _ => true
  | .obj _ => true
  | _ => false

/-- `Object.keys` (for arrays: the index keys, as produced by the host). -/
def jsKeys : JsonValue → List String
  | .obj l => l.map Prod.fst
  | .arr l => (List.range l.length).map (fun i => toString i)
  | _ => []

/-- Property access `v[k]` for the values `isEqual` can reach. -/
def jsGet : JsonValue → String → Option JsonValue
  | .obj l, k => (l.find? (fun e => e.fst == k)).map Prod.snd
  | .arr l, k => ((List.range l.length).find? (fun i => toString i == k)).bind l.get?
  | _, _ => none

/-- Strict equality `a === b` restricted to the non-object case (reference
equality of distinct objects is never relevant where the source uses it). -/
def primEq : JsonValue → JsonValue → Bool
  | .null, .null => true
  | .bool a, .bool b => a == b
  | .num a, .num b => a == b
  | .str a, .str b => a == b
  | _, _ => false

/-- Fuelled version of the helper `isEqual` (deep equality).  The fuel
bounds the recursion depth; `isEqualJS` supplies a sufficient amount. -/
def isEqualJSF : Nat → JsonValue → JsonValue → Bool
  | 0, _, _ => false
  | Nat.succ f, a, b =>
    match a, b with
    | .null, .null => true
    | .null, _ => false
    | _, .null => false
    | .arr la, .arr lb =>
      la.length == lb.length && (la.zip lb).all (fun x => isEqualJSF f x.1 x.2)
    | a, b =>
      if isObjLike a && isObjLike b then
        (jsKeys a).length == (jsKeys b).length &&
        (jsKeys a).all (fun k =>
          match jsGet a k, jsGet b k with
          | some va, some vb => isEqualJSF f va vb
          | _, _ => false)
      else primEq a b

/-- The helper `isEqual` of `json-diff.ts`. -/
def isEqualJS (a b : JsonValue) : Bool := isEqualJSF (jsize a + jsize b) a b

/-- First-match association-list lookup, modelling `obj[key]` for the parsed
JSON objects the differ walks (their keys are unique). -/
def lookupKey : List (String × JsonValue) → String → Option JsonValue
  | [], _ => none
  | e :: rest, k => if e.1 == k then some e.2 else lookupKey rest k

/-- Iteration order of `new Set([...a, ...b])`: first occurrences, in order. -/
def dedupFirstGo : List String → List String → List String
  | [], _ => []
  | k :: ks, seen =>
    if seen.contains k then dedupFirstGo ks seen else k :: dedupFirstGo ks (k :: seen)

/-- De-duplicate a key list keeping first occurrences. -/
def dedupFirst (l : List String) : List String := dedupFirstGo l []

/-- `Array.prototype.indexOf` (−1 when absent). -/
def jsIndexOf (l : List String) (x : String) : Int :=
  match l.findIdx? (fun y => y == x) with
  | some i => (i : Int)
  | none => -1

/-- Path extension: `basePath ? basePath + '.' + key : key`. -/
def childPath (basePath key : String) : String :=
  if basePath = "" then key else basePath ++ "." ++ key

/-- `path || '(root)'`. -/
def pathOrRoot (p : String) : String := if p = "" then "(root)" else p

/-- The reporting loop of `checkKeyOrder`, iterating over the indices of the
common-key orders and pushing `order_changed` items. -/
def checkKeyOrderGo (oldC newC : List String) (basePath : String) :
    List Nat → List DiffItem → List DiffItem
  | [], diffs => diffs
  | i :: is, diffs =>
    let diffs' :=
      if (oldC.getD i "") ≠ (newC.getD i "") then
        let key := oldC.getD i ""
        let newPosition := jsIndexOf newC key
        if (i : Int) ≠ newPosition then
          let currentPath := childPath basePath key
          if diffs.any (fun d => d.path == currentPath && d.type == DiffType.order_changed) then
            diffs
          else
            diffs ++ [{ path := currentPath, type := .order_changed,
                        oldIndex := some (i : Int), newIndex := some newPosition }]
        else diffs
      else diffs
    checkKeyOrderGo oldC newC basePath is diffs'

/-- `checkKeyOrder` (strict mode): relative reordering among common keys. -/
def checkKeyOrder (oldKeys newKeys : List String) (basePath : String)
    (diffs : List DiffItem) : List DiffItem :=
  let commonKeys := oldKeys.filter (fun k => newKeys.contains k)
  let oldCommonOrder := jsSortStable (fun a b => jsIndexOf oldKeys a - jsIndexOf oldKeys b) commonKeys
  let newCommonOrder := jsSortStable (fun a b => jsIndexOf newKeys a - jsIndexOf newKeys b) commonKeys
  checkKeyOrderGo oldCommonOrder newCommonOrder basePath
    (List.range oldCommonOrder.length) diffs

/-- One iteration of the key loop of `compareObjects`: a key present only
on one side pushes `removed`/`added`; a key present on both recurses via
the comparator `cv`. -/
def objStep (cv : JsonValue → JsonValue → String → DiffMode → List DiffItem → List DiffItem)
    (la lb : List (String × JsonValue)) (basePath : String) (mode : DiffMode)
    (d : List DiffItem) (key : String) : List DiffItem :=
  let currentPath := childPath basePath key
  match lookupKey la key, lookupKey lb key with
  | some v, none => d ++ [{ path := currentPath, type := .removed, oldValue := some v }]
  | none, some v => d ++ [{ path := currentPath, type := .added, newValue := some v }]
  | some va, some vb => cv va vb currentPath mode d
  | none, none => d

/-- `compareObjects` of `json-diff.ts`, with the recursive value
comparator passed in as `cv` and the key loop written as a fold over the
de-duplicated key union. -/
def compareObjectsW (cv : JsonValue → JsonValue → String → DiffMode → List DiffItem → List DiffItem)
    (la lb : List (String × JsonValue)) (basePath : String) (mode : DiffMode)
    (diffs : List DiffItem) : List DiffItem :=
  let oldKeys := la.map Prod.fst
  let newKeys := lb.map Prod.fst
  let diffs1 := if mode = .strict then checkKeyOrder oldKeys newKeys basePath diffs else diffs
  (dedupFirst (oldKeys ++ newKeys)).foldl (objStep cv la lb basePath mode) diffs1

/-- One iteration of the element loop of `compareArrays`: an index present
only on one side pushes `removed`/`added`; an index present on both
recurses via the comparator `cv`. -/
def arrStep (cv : JsonValue → JsonValue → String → DiffMode → List DiffItem → List DiffItem)
    (la lb : List JsonValue) (basePath : String) (mode : DiffMode)
    (d : List DiffItem) (i : Nat) : List DiffItem :=
  let currentPath := basePath ++ "[" ++ toString i ++ "]"
  match la.get? i, lb.get? i with
  | some v, none => d ++ [{ path := currentPath, type := .removed, oldValue := some v }]
  | none, some v => d ++ [{ path := currentPath, type := .added, newValue := some v }]
  | some va, some vb => cv va vb currentPath mode d
  | none, none => d

/-- `compareArrays` of `json-diff.ts`, with the recursive value comparator
passed in as `cv` and the element loop written as a fold over the index
range. -/
def compareArraysW (cv : JsonValue → JsonValue → String → DiffMode → List DiffItem → List DiffItem)
    (la lb : List JsonValue) (basePath : String) (mode : DiffMode)
    (diffs : List DiffItem) : List DiffItem :=
  (List.range (max la.length lb.length)).foldl (arrStep cv la lb basePath mode) diffs

/-- The `oldVal as JsonObject` cast (sound where the source applies it). -/
def asObjEntries : JsonValue → List (String × JsonValue)
  | .obj l => l
  | _ => []

/-- The `oldVal as JsonArray` cast (sound where the source applies it). -/
def asArrElems : JsonValue → List JsonValue
  | .arr l => l
  | _ => []

/-- The `switch (oldType)` dispatch of `compareValues` (reached only when
the type tags agree): objects and arrays recurse, anything else is
compared with `isEqual`. -/
def compareSwitch (cv : JsonValue → JsonValue → String → DiffMode → List DiffItem → List DiffItem)
    (oldVal newVal : JsonValue) (path : String) (mode : DiffMode)
    (diffs : List DiffItem) : List DiffItem :=
  if getValueType oldVal = "object" then
    compareObjectsW cv (asObjEntries oldVal) (asObjEntries newVal) path mode diffs
  else if getValueType oldVal = "array" then
    compareArraysW cv (asArrElems oldVal) (asArrElems newVal) path mode diffs
  else
    if isEqualJS oldVal newVal then diffs
    else diffs ++ [{ path := pathOrRoot path, type := .modified,
                     oldValue := some oldVal, newValue := some newVal }]

/-- Fuelled `compareValues` of `json-diff.ts`: a differing type tag emits
one `modified` item and stops; otherwise the dispatch runs with the
comparator at one less fuel.  The fuel bounds the recursion depth;
`compareValues` supplies a sufficient amount. -/
def compareValuesF : Nat → JsonValue → JsonValue → String → DiffMode → List DiffItem → List DiffItem
  | 0, _, _, _, _, diffs => diffs
  | Nat.succ fuel, oldVal, newVal, path, mode, diffs =>
    if getValueType oldVal ≠ getValueType newVal then
      diffs ++ [{ path := pathOrRoot path, type := .modified,
                  oldValue := some oldVal, newValue := some newVal }]
    else
      compareSwitch (compareValuesF fuel) oldVal newVal path mode diffs

/-- `compareValues`: the fuelled walker with enough fuel for its inputs. -/
def compareValues (oldVal newVal : JsonValue) (path : String) (mode : DiffMode)
    (diffs : List DiffItem) : List DiffItem :=
  compareValuesF (jsize oldVal + jsize newVal) oldVal newVal path mode diffs

/-- `compareJson`, the public entry point. -/
def compareJson (oldJson newJson : JsonValue) (mode : DiffMode := .loose) : DiffResult :=
  let diffs := compareValues oldJson newJson "" mode []
  { isEqual := diffs.length == 0, diffs := diffs }

end JsonDiff

namespace PhpParser

/-! ## Data model of `src/lib/php-parser.ts`

`PHPValue` is the value tree the parser produces.  A JavaScript object
(associative array) is modelled as its entry list in insertion order; the
host's special enumeration order for integer-like keys is not modelled, so
theorems about parsed maps are stated through key lookup rather than entry
order. -/

/-- The value tree (`PHPValue` in `src/types/php.ts`).  Numbers are
modelled as integers (see the header). -/
inductive PHPValue where
  | str (s : String)
  | num (n : Int)
  | bool (b : Bool)
  | null
  | arr (elems : List PHPValue)
  | map (entries : List (String × PHPValue))

mutual
/-- Structural size of a `PHPValue`, used as recursion fuel. -/
def psize : PHPValue → Nat
  | .str _ => 1
  | .num _ => 1
  | .bool _ => 1
  | .null => 1
  | .arr l => 1 + psizeL l
  | .map l => 1 + psizeE l
/-- Structural size of a value list. -/
def psizeL : List PHPValue → Nat
  | [] => 0
  | v :: vs => 1 + psize v + psizeL vs
/-- Structural size of an entry list. -/
def psizeE : List (String × PHPValue) → Nat
  | [] => 0
  | (_, v) :: es => 1 + psize v + psizeE es
end

/-- Lexer tokens (`Token` in `src/types/php.ts`). -/
inductive Token where
  | string (value : String) (quote : Char)
  | number (value : Int)
  | literal (value : String)
  | arrayKw
  | identifier (value : String)
  | arrow
  | lbracket
  | rbracket
  | lparen
  | rparen
  | comma
deriving BEq

/-- `unescapeString`: the six global replacements, in source order. -/
def unescapeString (s : String) : String :=
  replaceAllLit "\\\\" "\\"
    (replaceAllLit "\\\"" "\""
      (replaceAllLit "\\'" "'"
        (replaceAllLit "\\t" "\t"
          (replaceAllLit "\\r" "\r"
            (replaceAllLit "\\n" "\n" s)))))

/-- The string-literal scan of the tokenizer: collect the raw value (escape
pairs kept verbatim) up to, but not including, the closing quote. -/
def scanQuoted (quote : Char) : Nat → List Char → (List Char × List Char)
  | _, [] => ([], [])
  | 0, cs => ([], cs)
  | Nat.succ f, c :: cs =>
    if c == quote then ([], c :: cs)
    else if c == bslashC then
      match cs with
      | c2 :: cs2 =>
        let (v, rest) := scanQuoted quote f cs2
        (c :: c2 :: v, rest)
      | [] =>
        let (v, rest) := scanQuoted quote f []
        (c :: v, rest)
    else
      let (v, rest) := scanQuoted quote f cs
      (c :: v, rest)

/-- One pass of `tokenize`, fuelled by the input length. -/
def tokenizeGo : Nat → List Char → List Token
  | _, [] => []
  | 0, _ => []
  | Nat.succ f, c :: cs =>
    if isSpaceChar c then tokenizeGo f cs
    else if c == dquoteC || c == squoteC then
      let (raw, rest) := scanQuoted c (c :: cs).length cs
      Token.string (unescapeString ⟨raw⟩) c :: tokenizeGo f rest.tail
    else if isDigitChar c ||
        (c == '-' && (match cs with | c2 :: _ => isDigitChar c2 | [] => false)) then
      let ds := if c == '-' then cs else c :: cs
      let numPred := fun ch => isDigitChar ch || ch == '.'
      let run := ds.takeWhile numPred
      let rest := ds.dropWhile numPred
      let n : Int := (digitsVal (run.takeWhile isDigitChar) : Int)
      Token.number (if c == '-' then -n else n) :: tokenizeGo f rest
    else if c.isAlpha || c == '_' then
      let run := (c :: cs).takeWhile isWordChar
      let rest := (c :: cs).dropWhile isWordChar
      let w : String := ⟨run⟩
      let t :=
        if w = "array" then Token.arrayKw
        else if asciiLower w = "true" || asciiLower w = "false" || asciiLower w = "null" then
          Token.literal (asciiLower w)
        else Token.identifier w
      t :: tokenizeGo f rest
    else if c == '=' && (match cs with | c2 :: _ => c2 == '>' | [] => false) then
      Token.arrow :: tokenizeGo f cs.tail
    else if c == '[' then Token.lbracket :: tokenizeGo f cs
    else if c == ']' then Token.rbracket :: tokenizeGo f cs
    else if c == '(' then Token.lparen :: tokenizeGo f cs
    else if c == ')' then Token.rparen :: tokenizeGo f cs
    else if c == ',' then Token.comma :: tokenizeGo f cs
    else tokenizeGo f cs

/-- `tokenize`. -/
def tokenize (s : String) : List Token := tokenizeGo s.data.length s.data

mutual
/-- `String(v)` for a parsed PHP value used as an array key (the source
keeps non-number keys by coercing them with `String(...)`). -/
def phpKeyString : PHPValue → String
  | .num n => toString n
  | .str s => s
  | .bool true => "true"
  | .bool false => "false"
  | .null => "null"
  | .arr l => phpKeyJoin l
  | .map _ => "[object Object]"
/-- `Array.prototype.toString`: elements joined with `,`, `null` rendering
as the empty string. -/
def phpKeyJoin : List PHPValue → String
  | [] => ""
  | [v] => (match v with | .null => "" | w => phpKeyString w)
  | v :: w :: vs =>
    (match v with | .null => "" | u => phpKeyString u) ++ "," ++ phpKeyJoin (w :: vs)
end

/-- Property write `result[key] = value`: overwrite the value in place when
the key exists, append otherwise. -/
def jsObjSet : List (String × PHPValue) → String → PHPValue → List (String × PHPValue)
  | [], k, v => [(k, v)]
  | (k', v') :: rest, k, v =>
    if k' == k then (k', v) :: rest else (k', v') :: jsObjSet rest k v

/-- Property read `result[key]`. -/
def lookupPhp : List (String × PHPValue) → String → Option PHPValue
  | [], _ => none
  | (k', v) :: rest, k => if k' == k then some v else lookupPhp rest k

/-- State of the element loop of `parseArray`. -/
structure ArrSt where
  pos : Nat
  result : List (String × PHPValue)
  isIndexedArray : Bool
  index : Nat
  done : Bool

/-- One iteration of the element loop of `parseArray`.  `pv` parses one
value (`parseValue`) starting at a token position. -/
def arrStep (tokens : List Token) (pv : Nat → Except String (PHPValue × Nat)) :
    Except String ArrSt → Except String ArrSt
  | .error e => .error e
  | .ok st =>
    if st.done then .ok st
    else if st.pos < tokens.length then
      match tokens.get? st.pos with
      | some .rbracket => .ok { st with done := true }
      | some .rparen => .ok { st with done := true }
      | _ =>
        if st.pos + 1 < tokens.length && tokens.get? (st.pos + 1) == some Token.arrow then
          -- `key => value` element: parse the key, skip the arrow
          match pv st.pos with
          | .error e => .error e
          | .ok (keyValue, posK) =>
            let key := match keyValue with | .num n => toString n | v => phpKeyString v
            match pv (posK + 1) with
            | .error e => .error e
            | .ok (value, posV) =>
              let pos' := if tokens.get? posV == some Token.comma then posV + 1 else posV
              .ok ⟨pos', jsObjSet st.result key value, false, st.index, false⟩
        else
          -- un-keyed element: key is the current sequential counter
          match pv st.pos with
          | .error e => .error e
          | .ok (value, posV) =>
            let key := toString st.index
            let index' := if st.isIndexedArray then st.index + 1 else st.index
            let pos' := if tokens.get? posV == some Token.comma then posV + 1 else posV
            .ok ⟨pos', jsObjSet st.result key value, st.isIndexedArray, index', false⟩
    else .ok { st with done := true }

/-- `parseArray`: skip the opener, run the element loop (one fold step per
potential element; the loop always finishes within `tokens.length + 1`
steps because every iteration consumes at least one token), skip the
closing bracket, and collapse to a list when no explicit key was seen. -/
def parseArrayGo (tokens : List Token) (pv : Nat → Except String (PHPValue × Nat))
    (startPos : Nat) : Except String (PHPValue × Nat) :=
  let pos0 :=
    match tokens.get? startPos with
    | some .arrayKw =>
      if tokens.get? (startPos + 1) == some Token.lparen then startPos + 2 else startPos + 1
    | some .lbracket => startPos + 1
    | _ => startPos
  let st0 : Except String ArrSt := .ok ⟨pos0, [], true, 0, false⟩
  match (List.range (tokens.length + 1)).foldl (fun st _ => arrStep tokens pv st) st0 with
  | .error e => .error e
  | .ok st =>
    let pos1 :=
      match tokens.get? st.pos with
      | some .rbracket => st.pos + 1
      | some .rparen => st.pos + 1
      | _ => st.pos
    if st.isIndexedArray then
      .ok (.arr ((List.range st.index).map
        (fun i => (lookupPhp st.result (toString i)).getD .null)), pos1)
    else
      .ok (.map st.result, pos1)

/-- `parseValue`, fuelled by recursion depth (`parseTokens` supplies
`tokens.length + 1`, which exceeds any possible nesting depth). -/
def parseValueF (tokens : List Token) : Nat → Nat → Except String (PHPValue × Nat)
  | 0, _ => .error "解析深度超出模型燃料上限"
  | Nat.succ f, pos =>
    match tokens.get? pos with
    | none => .error "意外的输入结束"
    | some (.string v _) => .ok (.str v, pos + 1)
    | some (.number n) => .ok (.num n, pos + 1)
    | some (.literal v) =>
      .ok ((if v = "true" then PHPValue.bool true
            else if v = "false" then PHPValue.bool false
            else PHPValue.null), pos + 1)
    | some .lbracket => parseArrayGo tokens (parseValueF tokens f) pos
    | some .arrayKw => parseArrayGo tokens (parseValueF tokens f) pos
    | some _ => .error "无法解析的值"

/-- `parseTokens`: parse one value from position 0 (trailing tokens are
ignored, as in the source). -/
def parseTokens (tokens : List Token) : Except String PHPValue :=
  (parseValueF tokens (tokens.length + 1) 0).map Prod.fst

/-- `smartParsePHPArray`. -/
def smartParsePHPArray (s : String) : Except String PHPValue :=
  parseTokens (tokenize s)

/-- String escaping of the serializer's string branch (`\`, `'`, newline,
carriage-return, tab — in source order). -/
def escapePhpString (s : String) : String :=
  replaceAllLit "\t" "\\t"
    (replaceAllLit "\r" "\\r"
      (replaceAllLit "\n" "\\n"
        (replaceAllLit "'" "\\'"
          (replaceAllLit "\\" "\\\\" s))))

/-- Key escaping of the serializer's map branch (`\` and `'`). -/
def escapePhpKey (s : String) : String :=
  replaceAllLit "'" "\\'" (replaceAllLit "\\" "\\\\" s)

/-- `convertToPHP`, fuelled by recursion depth (`convertToPHP` supplies the
structural size, which exceeds any nesting depth).  The `NaN`/`Infinity`
number renderings of the source are unreachable in the integer number
model. -/
def convertToPHPF : Nat → PHPValue → Nat → String
  | 0, _, _ => ""
  | Nat.succ f, obj, indent =>
    let spaces := strRepeat "    " indent
    let nextSpaces := strRepeat "    " (indent + 1)
    match obj with
    | .arr l =>
      if l.length == 0 then "[]"
      else
        "[\n" ++
        String.join (l.enum.map (fun p =>
          nextSpaces ++ convertToPHPF f p.2 (indent + 1) ++
          (if p.1 < l.length - 1 then "," else "") ++ "\n")) ++
        spaces ++ "]"
    | .map entries =>
      if entries.length == 0 then "[]"
      else
        let keys := entries.map Prod.fst
        let isNumericKeys := keys.all isAllDigits
        let isSequentialKeys := isNumericKeys &&
          ((jsSortStable (fun a b => a - b) (keys.map (fun k => (digitsVal k.data : Int)))).enum.all
            (fun p => p.2 == (p.1 : Int)))
        "[\n" ++
        String.join (entries.enum.map (fun p =>
          let key := p.2.1
          let quotedKey :=
            if isNumericKeys && isSequentialKeys then ""
            else if isAllDigits key then key ++ " => "
            else "'" ++ escapePhpKey key ++ "' => "
          nextSpaces ++ quotedKey ++ convertToPHPF f p.2.2 (indent + 1) ++
          (if p.1 < entries.length - 1 then "," else "") ++ "\n")) ++
        spaces ++ "]"
    | .str s => "'" ++ escapePhpString s ++ "'"
    | .bool b => if b then "true" else "false"
    | .null => "null"
    | .num n => toString n

/-- `convertToPHP` (JSON value → PHP array literal text). -/
def convertToPHP (v : PHPValue) (indent : Nat := 0) : String :=
  convertToPHPF (psize v) v indent

end PhpParser

namespace PhpParser

/-! ## The degraded parser (`simpleParsePHPArray`) and the entry point -/

/-- One global pass of `replace(/\barray\s*\(/g, '[')`. -/
def replaceArrayOnceGo : Nat → Option Char → List Char → List Char
  | _, _, [] => []
  | 0, _, cs => cs
  | Nat.succ f, prev, c :: cs =>
    match matchLit "array".data (c :: cs) with
    | some rest =>
      if isBoundary prev (some c) then
        let rest2 := rest.dropWhile isSpaceChar
        match rest2 with
        | lp :: rest3 =>
          if lp == '(' then '[' :: replaceArrayOnceGo f (some lp) rest3
          else c :: replaceArrayOnceGo f (some c) cs
        | [] => c :: replaceArrayOnceGo f (some c) cs
      else c :: replaceArrayOnceGo f (some c) cs
    | none => c :: replaceArrayOnceGo f (some c) cs

/-- The `while (changed)` loop of `replaceArraySyntax`. -/
def replaceArraySyntaxLoop : Nat → List Char → List Char
  | 0, cs => cs
  | Nat.succ f, cs =>
    let cs' := replaceArrayOnceGo cs.length none cs
    if cs' == cs then cs else replaceArraySyntaxLoop f cs'

/-- `balanceParentheses`: rewrite every `(`/`)` outside string literals to
`[`/`]`, with a quote- and escape-aware scan. -/
def balanceParensGo : List Char → Bool → Char → Bool → List Char
  | [], _, _, _ => []
  | c :: cs, inString, stringChar, escaped =>
    if escaped then c :: balanceParensGo cs inString stringChar false
    else if c == bslashC then c :: balanceParensGo cs inString stringChar true
    else if !inString && (c == dquoteC || c == squoteC) then
      c :: balanceParensGo cs true c false
    else if inString && c == stringChar then c :: balanceParensGo cs false stringChar false
    else if inString then c :: balanceParensGo cs inString stringChar false
    else if c == '(' then '[' :: balanceParensGo cs inString stringChar false
    else if c == ')' then ']' :: balanceParensGo cs inString stringChar false
    else c :: balanceParensGo cs inString stringChar false

/-- `replaceArraySyntax`. -/
def replaceArraySyntax (s : String) : String :=
  ⟨balanceParensGo (replaceArraySyntaxLoop (s.data.length + 1) s.data) false ' ' false⟩

/-- Scan a quoted string body with escapes (`[^q\\]*(?:\\.[^q\\]*)*q`);
returns the consumed text (closing quote included) and the rest. -/
def quotedTokenGo (q : Char) : Nat → List Char → Option (List Char × List Char)
  | 0, _ => none
  | Nat.succ f, cs =>
    match cs with
    | [] => none
    | c :: cs' =>
      if c == q then some ([c], cs')
      else if c == bslashC then
        match cs' with
        | c2 :: cs2 => (quotedTokenGo q f cs2).map (fun p => (c :: c2 :: p.1, p.2))
        | [] => none
      else (quotedTokenGo q f cs').map (fun p => (c :: p.1, p.2))

/-- `replaceArrowSyntax`: rewrite `key => ` to `key: `/`"key": `, where a
key is a quoted string or a `\w+` run. -/
def replaceArrowGo : Nat → List Char → List Char
  | _, [] => []
  | 0, cs => cs
  | Nat.succ f, c :: cs =>
    let keyOpt : Option (List Char × List Char) :=
      if c == squoteC || c == dquoteC then
        (quotedTokenGo c (c :: cs).length cs).map (fun p => (c :: p.1, p.2))
      else if isWordChar c then
        some ((c :: cs).takeWhile isWordChar, (c :: cs).dropWhile isWordChar)
      else none
    match keyOpt with
    | some (key, rest) =>
      let rest2 := rest.dropWhile isSpaceChar
      match matchLit "=>".data rest2 with
      | some rest3 =>
        let rest4 := rest3.dropWhile isSpaceChar
        let rep :=
          if key.all isDigitChar then key ++ ": ".data
          else if (match key.head? with
                   | some h => h == squoteC || h == dquoteC
                   | none => false) then key ++ ": ".data
          else dquoteC :: (key ++ dquoteC :: ": ".data)
        rep ++ replaceArrowGo f rest4
      | none => c :: replaceArrowGo f cs
    | none => c :: replaceArrowGo f cs

/-- `replaceArrowSyntax`. -/
def replaceArrowSyntax (s : String) : String := ⟨replaceArrowGo s.data.length s.data⟩

/-- `replaceSingleQuotes`: single → double quotes outside double-quoted
runs, escape-aware. -/
def replaceSingleQuotesGo : List Char → Bool → Bool → List Char
  | [], _, _ => []
  | c :: cs, inDouble, escaped =>
    if escaped then c :: replaceSingleQuotesGo cs inDouble false
    else if c == bslashC then c :: replaceSingleQuotesGo cs inDouble true
    else if c == dquoteC then c :: replaceSingleQuotesGo cs (!inDouble) false
    else if inDouble then c :: replaceSingleQuotesGo cs inDouble false
    else if c == squoteC then dquoteC :: replaceSingleQuotesGo cs inDouble false
    else c :: replaceSingleQuotesGo cs inDouble false

/-- `replaceSingleQuotes`. -/
def replaceSingleQuotes (s : String) : String := ⟨replaceSingleQuotesGo s.data false false⟩

/-- Ordered word-bounded alternation: try each `(pattern, replacement)` at
the scan position, requiring a `\b` on both sides. -/
def tryWordPats (pats : List (List Char × List Char)) (prev : Option Char) (cs : List Char) :
    Option (List Char × Option Char × List Char) :=
  match pats with
  | [] => none
  | (p, r) :: ps =>
    match matchLit p cs with
    | some rest =>
      if isBoundary prev cs.head? && isBoundary p.getLast? rest.head? then
        some (r, p.getLast?, rest)
      else tryWordPats ps prev cs
    | none => tryWordPats ps prev cs

/-- Global replace of an ordered word-bounded alternation. -/
def replaceWordAltsGo (pats : List (List Char × List Char)) :
    Nat → Option Char → List Char → List Char
  | _, _, [] => []
  | 0, _, cs => cs
  | Nat.succ f, prev, c :: cs =>
    match tryWordPats pats prev (c :: cs) with
    | some (r, lastC, rest) => r ++ replaceWordAltsGo pats f lastC rest
    | none => c :: replaceWordAltsGo pats f (some c) cs

/-- `replacePhpValues`: lower-case the `true/false/null` literals, then map
`INF`, `NAN`, `-INF` to quoted sentinel strings — the four global replaces
in source order. -/
def replacePhpValues (s : String) : String :=
  let s1 : String :=
    ⟨replaceWordAltsGo
      [("true".data, "true".data), ("false".data, "false".data), ("null".data, "null".data),
       ("TRUE".data, "true".data), ("FALSE".data, "false".data), ("NULL".data, "null".data)]
      s.data.length none s.data⟩
  let s2 := replaceWB "INF" "\"Infinity\"" s1
  let s3 := replaceWB "NAN" "\"NaN\"" s2
  replaceWB "-INF" "\"-Infinity\"" s3

/-- `fixKeyFormat`: quote bare non-numeric word keys before `:`. -/
def fixKeyFormatGo : Nat → List Char → List Char
  | _, [] => []
  | 0, cs => cs
  | Nat.succ f, c :: cs =>
    if isWordChar c then
      let run := (c :: cs).takeWhile isWordChar
      let rest := (c :: cs).dropWhile isWordChar
      let sp1 := rest.takeWhile isSpaceChar
      let rest2 := rest.dropWhile isSpaceChar
      match rest2 with
      | ':' :: rest3 =>
        let sp2 := rest3.takeWhile isSpaceChar
        let rest4 := rest3.dropWhile isSpaceChar
        let colonPart := sp1 ++ ':' :: sp2
        let rep :=
          if !(run.all isDigitChar) then dquoteC :: (run ++ dquoteC :: colonPart)
          else run ++ colonPart
        rep ++ fixKeyFormatGo f rest4
      | _ => c :: fixKeyFormatGo f cs
    else c :: fixKeyFormatGo f cs

/-- `fixKeyFormat`. -/
def fixKeyFormat (s : String) : String := ⟨fixKeyFormatGo s.data.length s.data⟩

/-- State of the bracket-matching pass of `convertBrackets`. -/
structure CBSt where
  stack : List (Nat × Bool)
  pairs : List (Nat × Nat × Bool)
  inString : Bool
  stringChar : Char
  escaped : Bool

/-- The bracket-matching pass of `convertBrackets`: record each `[...]`
pair together with whether a `:` occurred at its own nesting depth
(quote- and escape-aware). -/
def convertBracketsScan : List (Nat × Char) → CBSt → CBSt
  | [], st => st
  | (i, c) :: rest, st =>
    if st.escaped then convertBracketsScan rest { st with escaped := false }
    else if c == bslashC then convertBracketsScan rest { st with escaped := true }
    else if c == dquoteC || c == squoteC then
      if !st.inString then convertBracketsScan rest { st with inString := true, stringChar := c }
      else if c == st.stringChar then convertBracketsScan rest { st with inString := false }
      else convertBracketsScan rest st
    else if st.inString then convertBracketsScan rest st
    else if c == '[' then convertBracketsScan rest { st with stack := (i, false) :: st.stack }
    else if c == ']' then
      match st.stack with
      | (openIdx, flag) :: stackRest =>
        convertBracketsScan rest { st with stack := stackRest, pairs := (openIdx, i, flag) :: st.pairs }
      | [] => convertBracketsScan rest st
    else if c == ':' then
      match st.stack with
      | (openIdx, _) :: stackRest =>
        convertBracketsScan rest { st with stack := (openIdx, true) :: stackRest }
      | [] => convertBracketsScan rest st
    else convertBracketsScan rest st

/-- `convertBrackets`: turn exactly the colon-containing `[...]` pairs into
`{...}`. -/
def convertBrackets (s : String) : String :=
  let st := convertBracketsScan s.data.enum ⟨[], [], false, ' ', false⟩
  let colonPairs := st.pairs.filter (fun p => p.2.2)
  let opens := colonPairs.map (fun p => p.1)
  let closes := colonPairs.map (fun p => p.2.1)
  ⟨s.data.enum.map (fun p =>
    if opens.contains p.1 then lcurlC
    else if closes.contains p.1 then rcurlC
    else p.2)⟩

/-- JSON whitespace. -/
def isJsonWs (c : Char) : Bool := c == ' ' || c == '\t' || c == '\n' || c == '\r'

/-- Decode one JSON string escape; returns the character and the rest. -/
def jsonEscape (cs : List Char) : Except String (Char × List Char) :=
  match cs with
  | [] => .error "Unexpected end of JSON input"
  | c :: rest =>
    if c == dquoteC then .ok (dquoteC, rest)
    else if c == bslashC then .ok (bslashC, rest)
    else if c == '/' then .ok ('/', rest)
    else if c == 'b' then .ok (Char.ofNat 8, rest)
    else if c == 'f' then .ok (Char.ofNat 12, rest)
    else if c == 'n' then .ok ('\n', rest)
    else if c == 'r' then .ok ('\r', rest)
    else if c == 't' then .ok ('\t', rest)
    else if c == 'u' then
      match rest with
      | a :: b :: d :: e :: rest2 =>
        let isHex := fun (x : Char) => x.isDigit || (97 ≤ x.toNat && x.toNat ≤ 102) || (65 ≤ x.toNat && x.toNat ≤ 70)
        if isHex a && isHex b && isHex d && isHex e then
          let hv := fun (x : Char) =>
            if x.isDigit then x.toNat - 48
            else if x.isLower then x.toNat - 87 else x.toNat - 55
          .ok (Char.ofNat (((hv a * 16 + hv b) * 16 + hv d) * 16 + hv e), rest2)
        else .error "Bad Unicode escape in JSON"
      | _ => .error "Bad Unicode escape in JSON"
    else .error "Bad escaped character in JSON"

/-- Parse a JSON string body (after the opening quote). -/
def jsonStringGo : Nat → List Char → Except String (List Char × List Char)
  | 0, _ => .error "Unexpected end of JSON input"
  | Nat.succ f, cs =>
    match cs with
    | [] => .error "Unterminated string in JSON"
    | c :: rest =>
      if c == dquoteC then .ok ([], rest)
      else if c == bslashC then
        match jsonEscape rest with
        | .error e => .error e
        | .ok (ch, rest2) =>
          match jsonStringGo f rest2 with
          | .error e => .error e
          | .ok (v, rest3) => .ok (ch :: v, rest3)
      else
        match jsonStringGo f rest with
        | .error e => .error e
        | .ok (v, rest2) => .ok (c :: v, rest2)

/-- State of a JSON object/array member loop. -/
structure JLoopSt where
  rest : List Char
  entries : List (String × PHPValue)
  elems : List PHPValue
  first : Bool
  done : Bool

/-- A JSON number literal: `-?\d+(\.\d+)?([eE][+-]?\d+)?`, truncated to its
integer part (numbers are modelled as integers; no claim settles a
fractional literal through this parser). -/
def jsonNumber (cs : List Char) : Except String (Int × List Char) :=
  let (neg, cs1) := match cs with
    | c :: r => if c == '-' then (true, r) else (false, cs)
    | [] => (false, cs)
  match cs1 with
  | c :: _ =>
    if isDigitChar c then
      let run := cs1.takeWhile isDigitChar
      let rest := cs1.dropWhile isDigitChar
      let rest2 :=
        match rest with
        | d :: r2 =>
          if d == '.' && (match r2.head? with | some x => isDigitChar x | none => false) then
            r2.dropWhile isDigitChar
          else rest
        | [] => rest
      let rest3 :=
        match rest2 with
        | e :: r3 =>
          if (e == 'e' || e == 'E') then
            let r4 := match r3 with
              | s :: r5 => if s == '+' || s == '-' then r5 else r3
              | [] => r3
            match r4.head? with
            | some x => if isDigitChar x then r4.dropWhile isDigitChar else rest2
            | none => rest2
          else rest2
        | [] => rest2
      let n : Int := (digitsVal run : Int)
      .ok (if neg then -n else n, rest3)
    else .error "Unexpected token in JSON"
  | [] => .error "Unexpected end of JSON input"

/-- Fuelled JSON value parser, modelling the host's `JSON.parse` (the final
step of the degraded strategy).  Object and array member loops are folds
with one step per potential member. -/
def jsonParseValF : Nat → List Char → Except String (PHPValue × List Char)
  | 0, _ => .error "JSON 解析燃料耗尽"
  | Nat.succ f, cs0 =>
    let cs := cs0.dropWhile isJsonWs
    match cs with
    | [] => .error "Unexpected end of JSON input"
    | c :: rest =>
      if c == lcurlC then
        let st0 : Except String JLoopSt := .ok ⟨rest, [], [], true, false⟩
        let stepObj := fun (st : Except String JLoopSt) (_ : Nat) =>
          match st with
          | .error e => .error e
          | .ok st =>
            if st.done then .ok st
            else
              let r := st.rest.dropWhile isJsonWs
              match r with
              | [] => .error "Unexpected end of JSON input"
              | ch :: r2 =>
                if ch == rcurlC && st.first then .ok ⟨r2, st.entries, [], false, true⟩
                else
                  let rkey : Except String (List Char) :=
                    if st.first then .ok r
                    else if ch == rcurlC then .ok (ch :: r2)
                    else if ch == ',' then .ok (r2.dropWhile isJsonWs)
                    else .error "Expected comma or closing brace in JSON"
                  match rkey with
                  | .error e => .error e
                  | .ok r3 =>
                    match r3 with
                    | k :: r4 =>
                      if k == rcurlC && !st.first then .ok ⟨r4, st.entries, [], false, true⟩
                      else if k == dquoteC then
                        match jsonStringGo r4.length r4 with
                        | .error e => .error e
                        | .ok (keyChars, r5) =>
                          let r6 := r5.dropWhile isJsonWs
                          match r6 with
                          | colon :: r7 =>
                            if colon == ':' then
                              match jsonParseValF f r7 with
                              | .error e => .error e
                              | .ok (v, r8) =>
                                .ok ⟨r8, st.entries ++ [(⟨keyChars⟩, v)], [], false, false⟩
                            else .error "Expected ':' in JSON"
                          | [] => .error "Unexpected end of JSON input"
                      else .error "Expected string key in JSON"
                    | [] => .error "Unexpected end of JSON input"
        match (List.range (rest.length + 1)).foldl stepObj st0 with
        | .error e => .error e
        | .ok st =>
          if st.done then .ok (.map st.entries, st.rest)
          else .error "Unterminated object in JSON"
      else if c == '[' then
        let st0 : Except String JLoopSt := .ok ⟨rest, [], [], true, false⟩
        let stepArr := fun (st : Except String JLoopSt) (_ : Nat) =>
          match st with
          | .error e => .error e
          | .ok st =>
            if st.done then .ok st
            else
              let r := st.rest.dropWhile isJsonWs
              match r with
              | [] => .error "Unexpected end of JSON input"
              | ch :: r2 =>
                if ch == ']' && st.first then .ok ⟨r2, [], st.elems, false, true⟩
                else
                  let rval : Except String (List Char) :=
                    if st.first then .ok r
                    else if ch == ']' then .ok (ch :: r2)
                    else if ch == ',' then .ok r2
                    else .error "Expected comma or closing bracket in JSON"
                  match rval with
                  | .error e => .error e
                  | .ok r3 =>
                    match r3 with
                    | k :: r4 =>
                      if k == ']' && !st.first then .ok ⟨r4, [], st.elems, false, true⟩
                      else
                        match jsonParseValF f r3 with
                        | .error e => .error e
                        | .ok (v, r8) => .ok ⟨r8, [], st.elems ++ [v], false, false⟩
                    | [] => .error "Unexpected end of JSON input"
        match (List.range (rest.length + 1)).foldl stepArr st0 with
        | .error e => .error e
        | .ok st =>
          if st.done then .ok (.arr st.elems, st.rest)
          else .error "Unterminated array in JSON"
      else if c == dquoteC then
        match jsonStringGo rest.length rest with
        | .error e => .error e
        | .ok (v, r2) => .ok (.str ⟨v⟩, r2)
      else
        match matchLit "true".data cs with
        | some r2 => .ok (.bool true, r2)
        | none =>
          match matchLit "false".data cs with
          | some r2 => .ok (.bool false, r2)
          | none =>
            match matchLit "null".data cs with
            | some r2 => .ok (.null, r2)
            | none =>
              match jsonNumber cs with
              | .error e => .error e
              | .ok (n, r2) => .ok (.num n, r2)

/-- `JSON.parse`, the final step of the degraded strategy. -/
def jsonParse (s : String) : Except String PHPValue :=
  match jsonParseValF (s.data.length + 1) s.data with
  | .error e => .error e
  | .ok (v, rest) =>
    if rest.dropWhile isJsonWs = [] then .ok v
    else .error "Unexpected non-whitespace character after JSON"

/-- `simpleParsePHPArray`: the degraded rewrite-to-JSON strategy. -/
def simpleParsePHPArray (phpString : String) : Except String PHPValue :=
  let s1 := replaceArraySyntax phpString
  let s2 := replaceArrowSyntax s1
  let s3 := replaceSingleQuotes s2
  let s4 := replacePhpValues s3
  let s5 := fixKeyFormat s4
  let s6 := convertBrackets s5
  jsonParse s6

/-- Global removal of `<?php`, `<?`, `?>` (ordered alternation). -/
def stripTagsGo : Nat → List Char → List Char
  | _, [] => []
  | 0, cs => cs
  | Nat.succ f, c :: cs =>
    match matchLit "<?php".data (c :: cs) with
    | some rest => stripTagsGo f rest
    | none =>
      match matchLit "<?".data (c :: cs) with
      | some rest => stripTagsGo f rest
      | none =>
        match matchLit "?>".data (c :: cs) with
        | some rest => stripTagsGo f rest
        | none => c :: stripTagsGo f cs

/-- Strip a leading `return` keyword (`/^return\s+/`). -/
def dropReturnPrefix (cs : List Char) : List Char :=
  match matchLit "return".data cs with
  | some rest =>
    match wsPlus rest with
    | some rest2 => rest2
    | none => cs
  | none => cs

/-- Strip a leading `$variable =` assignment (`/^\$\w+\s*=\s*/`). -/
def dropAssignPrefix (cs : List Char) : List Char :=
  match cs with
  | c :: rest =>
    if c == '$' then
      match wordRun rest with
      | some (_, rest2) =>
        match rest2.dropWhile isSpaceChar with
        | eq :: rest4 =>
          if eq == '=' then rest4.dropWhile isSpaceChar else cs
        | [] => cs
      | none => cs
    else cs
  | [] => cs

/-- Strip one trailing semicolon (`/;$/`). -/
def dropTrailingSemi (cs : List Char) : List Char :=
  match cs.getLast? with
  | some c => if c == ';' then cs.dropLast else cs
  | none => cs

/-- `parsePHPArray`, the public entry point: input cleanup, then the strict
strategy, falling back to the degraded strategy on any strict-parse
failure. -/
def parsePHPArray (phpString : String) : Except String PHPValue :=
  let clean0 := jsTrimL (stripTagsGo phpString.data.length phpString.data)
  let clean1 := dropTrailingSemi (dropAssignPrefix (dropReturnPrefix clean0))
  let cleanString : String := ⟨clean1⟩
  match smartParsePHPArray cleanString with
  | .ok v => .ok v
  | .error _ => simpleParsePHPArray cleanString

end PhpParser

namespace DdlParser

/-! ## Data model and parser of the DDL component -/

/-- `IndexType`. -/
inductive IndexType where
  | PRIMARY
  | UNIQUE
  | INDEX
  | FULLTEXT
  | SPATIAL
deriving BEq, DecidableEq

/-- `FieldIndex`. -/
structure FieldIndex where
  name : String
  type : IndexType
  isFirst : Bool

/-- `TableField`. -/
structure TableField where
  name : String
  type : String
  nullable : Bool
  defaultValue : Option String
  autoIncrement : Bool
  comment : String
  isPrimaryKey : Bool
  indexes : List FieldIndex

/-- `TableIndex`. -/
structure TableIndex where
  type : IndexType
  name : String
  columns : List String
  missingColumns : List String := []

/-- `TableInfo`. -/
structure TableInfo where
  tableName : String
  tableComment : String
  fields : List TableField
  indexes : List TableIndex

/-- `StandaloneIndex`. -/
structure StandaloneIndex where
  tableName : String
  index : TableIndex

/-- `DDLParseResult`. -/
structure DDLParseResult where
  tables : List TableInfo
  standaloneIndexes : List StandaloneIndex

/-- Strip `-- ...` line comments (the `gm`-flagged regex `--.*$`): drop
from `--` to the next line terminator. -/
def stripLineCommentsGo : Nat → List Char → List Char
  | _, [] => []
  | 0, cs => cs
  | Nat.succ f, c :: cs =>
    match matchLit "--".data (c :: cs) with
    | some rest => stripLineCommentsGo f (rest.dropWhile (fun ch => !isLineTermChar ch))
    | none => c :: stripLineCommentsGo f cs

/-- Drop through the first `*/`. -/
def findCloseCC : List Char → Option (List Char)
  | [] => none
  | c :: cs =>
    match matchLit "*/".data (c :: cs) with
    | some rest => some rest
    | none => findCloseCC cs

/-- Strip `/* ... */` block comments (`/\/\*[\s\S]*?\*\//g`, non-greedy:
each `/*` is closed by the nearest `*/`; an unclosed `/*` is left alone). -/
def stripBlockCommentsGo : Nat → List Char → List Char
  | _, [] => []
  | 0, cs => cs
  | Nat.succ f, c :: cs =>
    match matchLit "/*".data (c :: cs) with
    | some rest =>
      match findCloseCC rest with
      | some rest2 => stripBlockCommentsGo f rest2
      | none => c :: stripBlockCommentsGo f cs
    | none => c :: stripBlockCommentsGo f cs

/-- The statement list of `parseDDL`: strip comments, split on `;`, trim,
drop empties. -/
def ddlStatements (ddl : String) : List String :=
  let cleaned := stripBlockCommentsGo ddl.data.length (stripLineCommentsGo ddl.data.length ddl.data)
  (((splitOnChar ';' cleaned).map jsTrimL).filter (fun l => !l.isEmpty)).map
    (fun l => (⟨l⟩ : String))

/-- Try a position matcher at every suffix, left to right (the regex
engine's leftmost-match rule). -/
def firstMatch {α : Type} (m : List Char → Option α) : List Char → Option α
  | [] => m []
  | c :: cs =>
    match m (c :: cs) with
    | some r => some r
    | none => firstMatch m cs

/-- Match a `\s+`-separated case-insensitive word sequence at the head. -/
def seqPrefixCI : List String → List Char → Option (List Char)
  | [], cs => some cs
  | [w], cs => matchCI w.data cs
  | w :: ws, cs => ((matchCI w.data cs).bind wsPlus).bind (seqPrefixCI ws)

/-- Last character of a word sequence (for the trailing `\b`). -/
def lastCharOfSeq (ws : List String) : Option Char :=
  (ws.getLast?).bind (fun w => w.data.getLast?)

/-- Scan for `\bW1\s+W2...\b` (case-insensitive), carrying the previous
character for the leading boundary. -/
def containsWSGo (ws : List String) : Option Char → List Char → Bool
  | _, [] => false
  | prev, c :: cs =>
    ((isBoundary prev (some c)) &&
      (match seqPrefixCI ws (c :: cs) with
       | some rest => isBoundary (lastCharOfSeq ws) rest.head?
       | none => false)) || containsWSGo ws (some c) cs

/-- `/\bW1\s+W2...\b/i.test`. -/
def containsWordSeqCI (ws : List String) (cs : List Char) : Bool := containsWSGo ws none cs

/-- `/CREATE\s+TABLE/i.test(stmt)`. -/
def testCreateTable (stmt : String) : Bool :=
  (firstMatch (fun cs => ((matchCI "CREATE".data cs).bind wsPlus).bind (matchCI "TABLE".data))
    stmt.data).isSome

/-- `/CREATE\s+(UNIQUE\s+)?INDEX/i.test(stmt)` — the statement dispatch of
`parseDDL`; note the optional group allows only `UNIQUE`. -/
def testCreateIndexStmt (stmt : String) : Bool :=
  (firstMatch (fun cs =>
    ((matchCI "CREATE".data cs).bind wsPlus).bind (fun r =>
      let r2 := match (matchCI "UNIQUE".data r).bind wsPlus with
        | some r' => r'
        | none => r
      matchCI "INDEX".data r2)) stmt.data).isSome

/-- Skip one optional backtick/double-quote/single-quote. -/
def skipOptQuote (cs : List Char) : List Char :=
  match cs with
  | c :: rest => if c == btickC || c == dquoteC || c == squoteC then rest else cs
  | [] => cs

/-- Extract the table name:
`/CREATE\s+TABLE\s+(?:IF\s+NOT\s+EXISTS\s+)?[`"']?(\w+)[`"']?/i`. -/
def extractTableName (cs : List Char) : Option String :=
  firstMatch (fun cs => do
    let r1 ← matchCI "CREATE".data cs
    let r2 ← wsPlus r1
    let r3 ← matchCI "TABLE".data r2
    let r4 ← wsPlus r3
    let r5 := match (((((matchCI "IF".data r4).bind wsPlus).bind
        (matchCI "NOT".data)).bind wsPlus).bind
        (matchCI "EXISTS".data)).bind wsPlus with
      | some r => r
      | none => r4
    let r6 := skipOptQuote r5
    let (name, _) ← wordRun r6
    pure (⟨name⟩ : String)) cs

/-- Extract the table comment:
`/\)\s*[^;]*COMMENT\s*=?\s*['"]([^'"]+)['"]/i` (greedy `[^;]*`, so the
last reachable `COMMENT` is preferred). -/
def extractTableComment (cs : List Char) : Option String :=
  firstMatch (fun cs =>
    match cs with
    | c :: rest =>
      if c == ')' then
        let isQ := fun (ch : Char) => ch == squoteC || ch == dquoteC
        let tailMatch := fun (after : List Char) =>
          let r1 := after.dropWhile isSpaceChar
          let r2 := match r1 with
            | e :: t => if e == '=' then t else r1
            | [] => r1
          let r3 := r2.dropWhile isSpaceChar
          match r3 with
          | q :: t =>
            if isQ q then
              let content := t.takeWhile (fun ch => !isQ ch)
              let t2 := t.dropWhile (fun ch => !isQ ch)
              if !content.isEmpty then
                match t2 with
                | _ :: _ => some (⟨content⟩ : String)
                | [] => none
              else none
            else none
          | [] => none
        let cands := ((List.range (rest.length + 1)).filter (fun p =>
          !((rest.take p).any (fun ch => ch == ';')) &&
          (matchCI "COMMENT".data (rest.drop p)).isSome)).reverse
        cands.firstM (fun p =>
          (matchCI "COMMENT".data (rest.drop p)).bind tailMatch)
      else none
    | [] => none) cs

/-- Last index of a character in a list. -/
def lastIdxOf (c : Char) (l : List Char) : Option Nat :=
  ((l.enum.filter (fun p => p.2 == c)).map (fun p => p.1)).getLast?

/-- Extract the parenthesized table body:
`/CREATE\s+TABLE[^(]*\(([\s\S]+)\)[^)]*$/i` — from the first `(` after
`CREATE TABLE` to the last `)` of the statement, nonempty. -/
def extractTableContent (cs : List Char) : Option (List Char) :=
  firstMatch (fun cs => do
    let r1 ← matchCI "CREATE".data cs
    let r2 ← wsPlus r1
    let r3 ← matchCI "TABLE".data r2
    let rest := r3.dropWhile (fun ch => ch != '(')
    match rest with
    | _ :: afterParen =>
      match lastIdxOf ')' afterParen with
      | some i => if 1 ≤ i then some (afterParen.take i) else none
      | none => none
    | [] => none) cs

/-- Collapse whitespace runs to single spaces (`replace(/\s+/g, ' ')`). -/
def collapseWsGo : List Char → Bool → List Char
  | [], _ => []
  | c :: cs, prevSpace =>
    if isSpaceChar c then
      (if prevSpace then collapseWsGo cs true else ' ' :: collapseWsGo cs true)
    else c :: collapseWsGo cs false

/-- `def.replace(/\s+/g, ' ').trim()`. -/
def normalizeDef (l : List Char) : List Char := jsTrimL (collapseWsGo l false)

/-- State of `splitDefinitions`. -/
structure SplitSt where
  current : List Char
  depth : Int
  inString : Bool
  stringChar : Char
  prev : Option Char
  acc : List (List Char)

/-- The body splitter `splitDefinitions`: split on top-level commas,
tracking parenthesis depth and quote state (single/double/backtick,
backslash-escape-aware via the previous character). -/
def splitDefsGo : List Char → SplitSt → List (List Char)
  | [], st => if (jsTrimL st.current).isEmpty then st.acc else st.acc ++ [jsTrimL st.current]
  | c :: cs, st =>
    if st.inString then
      let closes := c == st.stringChar && !(st.prev == some bslashC)
      splitDefsGo cs { st with current := st.current ++ [c], inString := !closes, prev := some c }
    else if c == squoteC || c == dquoteC || c == btickC then
      splitDefsGo cs { st with current := st.current ++ [c], inString := true, stringChar := c, prev := some c }
    else if c == '(' then
      splitDefsGo cs { st with current := st.current ++ [c], depth := st.depth + 1, prev := some c }
    else if c == ')' then
      splitDefsGo cs { st with current := st.current ++ [c], depth := st.depth - 1, prev := some c }
    else if c == ',' && st.depth == 0 then
      splitDefsGo cs { st with current := [], acc := st.acc ++ [jsTrimL st.current], prev := some c }
    else
      splitDefsGo cs { st with current := st.current ++ [c], prev := some c }

/-- `splitDefinitions`. -/
def splitDefinitions (content : List Char) : List (List Char) :=
  splitDefsGo content ⟨[], 0, false, ' ', none, []⟩

/-- The index-definition classifier of `parseCreateTable` (ordered
alternation, prefix-anchored, case-insensitive). -/
def isIndexDefPrefix (cs : List Char) : Bool :=
  (seqPrefixCI ["PRIMARY", "KEY"] cs).isSome ||
  (seqPrefixCI ["UNIQUE", "KEY"] cs).isSome ||
  (seqPrefixCI ["UNIQUE", "INDEX"] cs).isSome ||
  (seqPrefixCI ["KEY"] cs).isSome ||
  (seqPrefixCI ["INDEX"] cs).isSome ||
  (seqPrefixCI ["FULLTEXT", "KEY"] cs).isSome ||
  (seqPrefixCI ["FULLTEXT", "INDEX"] cs).isSome ||
  (seqPrefixCI ["SPATIAL", "KEY"] cs).isSome ||
  (seqPrefixCI ["SPATIAL", "INDEX"] cs).isSome ||
  (seqPrefixCI ["CONSTRAINT"] cs).isSome

/-- The field-definition classifier (`/^[`"']?\w+[`"']?\s+/i`). -/
def isFieldDefPrefix (cs : List Char) : Bool :=
  (((wordRun (skipOptQuote cs)).map (fun p => skipOptQuote p.2)).bind wsPlus).isSome

/-- `parseIndexColumns`: comma-split; per entry, the first
`/[`"']?(\w+)[`"']?/` match; empties dropped. -/
def parseIndexColumns (columnsStr : List Char) : List String :=
  (((splitOnChar ',' columnsStr).map (fun col =>
    let t := jsTrimL col
    match firstMatch (fun cs =>
      match cs with
      | q :: rest =>
        if q == btickC || q == dquoteC || q == squoteC then (wordRun rest).map Prod.fst
        else (wordRun cs).map Prod.fst
      | [] => none) t with
    | some w => (⟨w⟩ : String)
    | none => "")).filter (fun s => s ≠ ""))

/-- First `/\(([^)]+)\)/` match: the content of the first nonempty
parenthesis group. -/
def firstParenContent (cs : List Char) : Option (List Char) :=
  firstMatch (fun cs =>
    match cs with
    | c :: rest =>
      if c == '(' then
        let content := rest.takeWhile (fun ch => ch != ')')
        let r2 := rest.dropWhile (fun ch => ch != ')')
        if !content.isEmpty then
          match r2 with
          | _ :: _ => some content
          | [] => none
        else none
      else none
    | [] => none) cs

/-- The `\s+[`"']?(\w+)[`"']?\s*\(([^)]+)\)` tail of the named inline-index
extraction regexes, applied after `KEY`/`INDEX`. -/
def namedIndexTail (r3 : List Char) : Option (String × List String) := do
  let r4 ← wsPlus r3
  let r5 := skipOptQuote r4
  let (name, r6) ← wordRun r5
  let r7 := skipOptQuote r6
  let r8 := r7.dropWhile isSpaceChar
  match r8 with
  | c :: r9 =>
    if c == '(' then
      let content := r9.takeWhile (fun ch => ch != ')')
      let r10 := r9.dropWhile (fun ch => ch != ')')
      if !content.isEmpty then
        match r10 with
        | _ :: _ => some ((⟨name⟩ : String), parseIndexColumns content)
        | [] => none
      else none
    else none
  | [] => none

/-- `(?:KEY|INDEX)` (ordered). -/
def matchKeyOrIndexKw (cs : List Char) : Option (List Char) :=
  match matchCI "KEY".data cs with
  | some r => some r
  | none => matchCI "INDEX".data cs

/-- `parseInlineIndex`: dispatch on the normalized prefix; an index with
zero parsed columns is discarded.  A `SPATIAL ...` or `CONSTRAINT ...`
definition matches no branch and yields nothing. -/
def parseInlineIndex (indexDef : List Char) : Option TableIndex :=
  let nd := normalizeDef indexDef
  if (seqPrefixCI ["PRIMARY", "KEY"] nd).isSome then
    let columns := match firstParenContent nd with
      | some c => parseIndexColumns c
      | none => []
    if columns.isEmpty then none
    else some { type := .PRIMARY, name := "PRIMARY", columns := columns }
  else if (seqPrefixCI ["UNIQUE", "KEY"] nd).isSome || (seqPrefixCI ["UNIQUE", "INDEX"] nd).isSome then
    match ((matchCI "UNIQUE".data nd).bind wsPlus).bind
        (fun r => (matchKeyOrIndexKw r).bind namedIndexTail) with
    | some (n, cols) => if cols.isEmpty then none else some { type := .UNIQUE, name := n, columns := cols }
    | none => none
  else if (seqPrefixCI ["FULLTEXT", "KEY"] nd).isSome || (seqPrefixCI ["FULLTEXT", "INDEX"] nd).isSome then
    match ((matchCI "FULLTEXT".data nd).bind wsPlus).bind
        (fun r => (matchKeyOrIndexKw r).bind namedIndexTail) with
    | some (n, cols) => if cols.isEmpty then none else some { type := .FULLTEXT, name := n, columns := cols }
    | none => none
  else if (seqPrefixCI ["KEY"] nd).isSome || (seqPrefixCI ["INDEX"] nd).isSome then
    match (matchKeyOrIndexKw nd).bind namedIndexTail with
    | some (n, cols) => if cols.isEmpty then none else some { type := .INDEX, name := n, columns := cols }
    | none => none
  else none

/-- Strip one leading and one trailing quote (`replace(/^['"]|['"]$/g,'')`). -/
def stripEdgeQuotes (l : List Char) : List Char :=
  let l1 := match l with
    | c :: rest => if c == squoteC || c == dquoteC then rest else l
    | [] => l
  match l1.getLast? with
  | some c => if c == squoteC || c == dquoteC then l1.dropLast else l1
  | none => l1

/-- The `DEFAULT` value matcher:
`/DEFAULT\s+('(?:[^'\\]|\\.)*'|"(?:[^"\\]|\\.)*"|[\w()]+)/i`. -/
def defaultMatcher (cs : List Char) : Option (List Char) := do
  let r1 ← matchCI "DEFAULT".data cs
  let r2 ← wsPlus r1
  match r2 with
  | q :: rest =>
    if q == squoteC || q == dquoteC then
      (PhpParser.quotedTokenGo q rest.length rest).map (fun p => q :: p.1)
    else
      let wp := fun (ch : Char) => isWordChar ch || ch == '(' || ch == ')'
      let run := r2.takeWhile wp
      if run.isEmpty then none else some run
  | [] => none

/-- The `COMMENT` matcher: `/COMMENT\s+['"]([^'"]*)['"]/i`. -/
def commentMatcher (cs : List Char) : Option String := do
  let r1 ← matchCI "COMMENT".data cs
  let r2 ← wsPlus r1
  let isQ := fun (ch : Char) => ch == squoteC || ch == dquoteC
  match r2 with
  | q :: rest =>
    if isQ q then
      let content := rest.takeWhile (fun ch => !isQ ch)
      let r3 := rest.dropWhile (fun ch => !isQ ch)
      match r3 with
      | _ :: _ => some (⟨content⟩ : String)
      | [] => none
    else none
  | [] => none

/-- The `^(\w+(?:\s*\([^)]+\))?(?:\s+unsigned)?(?:\s+zerofill)?)` type
matcher; returns the matched text. -/
def matchTypePrefix (rest : List Char) : Option (List Char) := do
  let (_, t1) ← wordRun rest
  let t2 := match (
      let u := t1.dropWhile isSpaceChar
      match u with
      | c :: u2 =>
        if c == '(' then
          let content := u2.takeWhile (fun ch => ch != ')')
          let u3 := u2.dropWhile (fun ch => ch != ')')
          if !content.isEmpty then
            match u3 with
            | _ :: u4 => some u4
            | [] => none
          else none
        else none
      | [] => none) with
    | some u4 => u4
    | none => t1
  let t3 := match (wsPlus t2).bind (matchCI "unsigned".data) with
    | some u => u
    | none => t2
  let t4 := match (wsPlus t3).bind (matchCI "zerofill".data) with
    | some u => u
    | none => t3
  some (rest.take (rest.length - t4.length))

/-- `parseField`. -/
def parseField (fieldDef : List Char) : Option TableField := do
  let normalized := normalizeDef fieldDef
  let r1 := skipOptQuote normalized
  let (name, r2) ← wordRun r1
  let r3 := skipOptQuote r2
  let rest ← wsPlus r3
  if rest.isEmpty then none
  else
    let typeStr : String := match matchTypePrefix rest with
      | some m => ⟨normalizeDef m⟩
      | none => "UNKNOWN"
    some {
      name := ⟨name⟩
      type := typeStr
      nullable := !containsWordSeqCI ["NOT", "NULL"] rest
      defaultValue := (firstMatch defaultMatcher rest).map (fun cap => (⟨stripEdgeQuotes cap⟩ : String))
      autoIncrement := containsWordSeqCI ["AUTO_INCREMENT"] rest
      comment := (firstMatch commentMatcher rest).getD ""
      isPrimaryKey := containsWordSeqCI ["PRIMARY", "KEY"] rest
      indexes := [] }

/-- `parseCreateTable`: extract name (fatal when impossible), comment,
body (fatal when impossible); split and classify the definitions; then
rebuild every field's `indexes` and every index's `missingColumns`. -/
def parseCreateTable (ddl : String) : Except String TableInfo :=
  match extractTableName ddl.data with
  | none => .error "无法识别 CREATE TABLE 语句"
  | some tableName =>
    let tableComment := (extractTableComment ddl.data).getD ""
    match extractTableContent ddl.data with
    | none => .error "无法解析表定义内容"
    | some content =>
      let definitions := splitDefinitions content
      let fi := definitions.foldl
        (fun (acc : List TableField × List TableIndex) d =>
          let trimmed := jsTrimL d
          if trimmed.isEmpty then acc
          else if isIndexDefPrefix trimmed then
            match parseInlineIndex trimmed with
            | some idx => (acc.1, acc.2 ++ [idx])
            | none => acc
          else if isFieldDefPrefix trimmed then
            match parseField trimmed with
            | some fld => (acc.1 ++ [fld], acc.2)
            | none => acc
          else acc)
        ([], [])
      let fields := fi.1
      let indexes := fi.2
      let fieldNames := fields.map (fun f => asciiLower f.name)
      let fields2 := fields.map (fun f =>
        { f with indexes :=
            (indexes.filter (fun idx =>
              idx.columns.any (fun col => asciiLower col == asciiLower f.name))).map (fun idx =>
                { name := idx.name, type := idx.type,
                  isFirst := match idx.columns.head? with
                    | some c0 => asciiLower c0 == asciiLower f.name
                    | none => false }) })
      let indexes2 := indexes.map (fun idx =>
        { idx with missingColumns :=
            idx.columns.filter (fun col => !(fieldNames.contains (asciiLower col))) })
      .ok { tableName := tableName, tableComment := tableComment,
            fields := fields2, indexes := indexes2 }

/-- `parseCreateIndex`:
`/CREATE\s+(UNIQUE\s+|FULLTEXT\s+|SPATIAL\s+)?INDEX\s+[`"']?(\w+)[`"']?\s+ON\s+[`"']?(\w+)[`"']?\s*\(([^)]+)\)/i`. -/
def parseCreateIndex (stmt : String) : Option StandaloneIndex :=
  firstMatch (fun cs => do
    let r1 ← matchCI "CREATE".data cs
    let r2 ← wsPlus r1
    let (ty, r3) : IndexType × List Char :=
      match (matchCI "UNIQUE".data r2).bind wsPlus with
      | some r => (.UNIQUE, r)
      | none =>
        match (matchCI "FULLTEXT".data r2).bind wsPlus with
        | some r => (.FULLTEXT, r)
        | none =>
          match (matchCI "SPATIAL".data r2).bind wsPlus with
          | some r => (.SPATIAL, r)
          | none => (.INDEX, r2)
    let r4 ← matchCI "INDEX".data r3
    let r5 ← wsPlus r4
    let r6 := skipOptQuote r5
    let (nameRun, r7) ← wordRun r6
    let r8 := skipOptQuote r7
    let r9 ← wsPlus r8
    let r10 ← matchCI "ON".data r9
    let r11 ← wsPlus r10
    let r12 := skipOptQuote r11
    let (tblRun, r13) ← wordRun r12
    let r14 := skipOptQuote r13
    let r15 := r14.dropWhile isSpaceChar
    match r15 with
    | c :: r16 =>
      if c == '(' then
        let content := r16.takeWhile (fun ch => ch != ')')
        let r17 := r16.dropWhile (fun ch => ch != ')')
        if !content.isEmpty then
          match r17 with
          | _ :: _ => some { tableName := (⟨tblRun⟩ : String),
                             index := { type := ty, name := (⟨nameRun⟩ : String),
                                        columns := parseIndexColumns content } }
          | [] => none
        else none
      else none
    | [] => none) stmt.data

/-- Insert-or-overwrite into the accumulating table map
(`tables[name] = t`; string keys keep insertion order). -/
def upsertTable : List (String × TableInfo) → String → TableInfo → List (String × TableInfo)
  | [], k, t => [(k, t)]
  | (k', t') :: rest, k, t =>
    if k' == k then (k', t) :: rest else (k', t') :: upsertTable rest k t

/-- Attach a standalone index to an already-known table: compute
`missingColumns`, push the index, and back-populate the fields' `indexes`
lists. -/
def attachIndex (t : TableInfo) (si : StandaloneIndex) : TableInfo :=
  let fieldNames := t.fields.map (fun f => asciiLower f.name)
  let idx := { si.index with
    missingColumns := si.index.columns.filter (fun col => !(fieldNames.contains (asciiLower col))) }
  let fields2 := t.fields.map (fun f =>
    if si.index.columns.any (fun col => asciiLower col == asciiLower f.name) then
      { f with indexes := f.indexes ++
          [{ name := si.index.name, type := si.index.type,
             isFirst := match si.index.columns.head? with
               | some c0 => asciiLower c0 == asciiLower f.name
               | none => false }] }
    else f)
  { t with indexes := t.indexes ++ [idx], fields := fields2 }

/-- The statement loop of `parseDDL`; a `parseCreateTable` error aborts
the whole call. -/
def parseDDLGo : List String → List (String × TableInfo) → List StandaloneIndex →
    Except String (List (String × TableInfo) × List StandaloneIndex)
  | [], tables, sidx => .ok (tables, sidx)
  | stmt :: rest, tables, sidx =>
    if testCreateTable stmt then
      match parseCreateTable stmt with
      | .error e => .error e
      | .ok t => parseDDLGo rest (upsertTable tables (asciiLower t.tableName) t) sidx
    else if testCreateIndexStmt stmt then
      match parseCreateIndex stmt with
      | some si =>
        let key := asciiLower si.tableName
        if (tables.find? (fun p => p.1 == key)).isSome then
          parseDDLGo rest
            (tables.map (fun p => if p.1 == key then (p.1, attachIndex p.2 si) else p)) sidx
        else
          parseDDLGo rest tables (sidx ++ [si])
      | none => parseDDLGo rest tables sidx
    else parseDDLGo rest tables sidx

/-- `parseDDL`, the public entry point. -/
def parseDDL (ddl : String) : Except String DDLParseResult :=
  match parseDDLGo (ddlStatements ddl) [] [] with
  | .error e => .error e
  | .ok (tables, sidx) =>
    .ok { tables := tables.map Prod.snd, standaloneIndexes := sidx }

end DdlParser

/-! ## Claim theorems -/

section ClaimTheorems

open JsonDiff PhpParser DdlParser

/-- C1 (counterexample): parsing `['a', 5 => 'x', 'b', 'c']` with the
strict parser does *not* give the later un-keyed elements distinct
successive keys: the counter freezes once the explicit key `5` is seen, so
`'b'` and `'c'` both receive key `1` and `'c'` overwrites `'b'` — the
result has exactly three entries, `0 ↦ 'a'`, `5 ↦ 'x'`, `1 ↦ 'c'`, with
no key `2` and no element `'b'` at all. -/
theorem php_sequential_key_counterexample :
    match smartParsePHPArray "['a', 5 => 'x', 'b', 'c']" with
    | .ok (.map entries) =>
        entries.length = 3 ∧
        lookupPhp entries "0" = some (.str "a") ∧
        lookupPhp entries "5" = some (.str "x") ∧
        lookupPhp entries "1" = some (.str "c") ∧
        lookupPhp entries "2" = none
    | _ => False := by
  exact ⟨rfl, rfl, rfl, rfl, rfl⟩

/-- C1 (amended): an un-keyed element receives the current value of a
counter that starts at 0 and advances only on un-keyed elements parsed
before the first explicitly-keyed element; after an explicit key the
counter freezes.  `[5 => 'a', 'b']` therefore assigns `'b'` to key 0, and
in `['a', 5 => 'x', 'b', 'c']` both `'b'` and `'c'` receive the frozen
counter value 1, the later overwriting the earlier.  The first conjunct
is the general freeze invariant on the element loop: once
`isIndexedArray` is false, one loop step keeps it false and leaves the
counter unchanged. -/
theorem php_sequential_key_amended :
    (∀ (tokens : List Token) (pv : Nat → Except String (PHPValue × Nat)) (st : ArrSt),
        st.isIndexedArray = false →
        match arrStep tokens pv (.ok st) with
        | .ok st' => st'.isIndexedArray = false ∧ st'.index = st.index
        | .error _ => True) ∧
    (match smartParsePHPArray "[5 => 'a', 'b']" with
     | .ok (.map entries) =>
         entries.length = 2 ∧
         lookupPhp entries "5" = some (.str "a") ∧
         lookupPhp entries "0" = some (.str "b")
     | _ => False) ∧
    (match smartParsePHPArray "['a', 5 => 'x', 'b', 'c']" with
     | .ok (.map entries) =>
         entries.length = 3 ∧
         lookupPhp entries "0" = some (.str "a") ∧
         lookupPhp entries "5" = some (.str "x") ∧
         lookupPhp entries "1" = some (.str "c") ∧
         lookupPhp entries "2" = none
     | _ => False) := by
  refine ⟨?_, ⟨rfl, rfl, rfl⟩, rfl, rfl, rfl, rfl, rfl⟩
  intro tokens pv st hidx
  rw [PhpParser.arrStep]
  split
  next st' heq =>
    split at heq
    · cases heq; exact ⟨hidx, rfl⟩
    · split at heq
      · split at heq
        · cases heq; exact ⟨hidx, rfl⟩
        · cases heq; exact ⟨hidx, rfl⟩
        · split at heq
          · split at heq
            · cases heq
            · dsimp only at heq
              split at heq
              · cases heq
              · cases heq; exact ⟨rfl, rfl⟩
          · split at heq
            · cases heq
            · cases heq; exact ⟨hidx, by simp [hidx]⟩
      · cases heq; exact ⟨hidx, rfl⟩
  next => trivial

/-- C2: `parseDDL`'s statement dispatch regex `CREATE\s+(UNIQUE\s+)?INDEX`
never matches `CREATE FULLTEXT INDEX` or `CREATE SPATIAL INDEX`, so those
statements are silently dropped (no table, no standalone index), even
though `parseCreateIndex` itself parses them; plain and `UNIQUE` forms are
dispatched and land in `standaloneIndexes` when the table is unknown. -/
theorem ddl_fulltext_spatial_index_dropped :
    parseDDL "CREATE FULLTEXT INDEX idx_ft ON articles (title)" = .ok ⟨[], []⟩ ∧
    parseDDL "CREATE SPATIAL INDEX idx_sp ON places (location)" = .ok ⟨[], []⟩ ∧
    parseCreateIndex "CREATE FULLTEXT INDEX idx_ft ON articles (title)" =
      some ⟨"articles", ⟨.FULLTEXT, "idx_ft", ["title"], []⟩⟩ ∧
    parseCreateIndex "CREATE SPATIAL INDEX idx_sp ON places (location)" =
      some ⟨"places", ⟨.SPATIAL, "idx_sp", ["location"], []⟩⟩ ∧
    parseDDL "CREATE INDEX idx_n ON t (c)" = .ok ⟨[], [⟨"t", ⟨.INDEX, "idx_n", ["c"], []⟩⟩]⟩ ∧
    parseDDL "CREATE UNIQUE INDEX idx_u ON t (c)" =
      .ok ⟨[], [⟨"t", ⟨.UNIQUE, "idx_u", ["c"], []⟩⟩]⟩ := by
  exact ⟨rfl, rfl, rfl, rfl, rfl, rfl⟩

/-- C3: the round trip fails on the two-character string `\n` (backslash,
`n`): `convertToPHP` escapes it to `'\\n'`, but `unescapeString` rewrites
the `\n` substring of the raw token `\\n` *before* handling `\\`, so
parsing returns backslash-newline instead of backslash-`n`. -/
theorem php_roundtrip_backslash_n_bug :
    convertToPHP (.str "\\n") 0 = "'\\\\n'" ∧
    parsePHPArray (convertToPHP (.str "\\n") 0) = .ok (.str "\\\n") ∧
    ("\\\n" : String) ≠ "\\n" := by
  exact ⟨rfl, rfl, by decide⟩

/-- C4: `replacePhpValues` rewrites the whole-word `INF` *first*, so an
input containing `-INF` becomes `-"Infinity"`; the later `\b-INF\b`
replacement never fires and the output does not contain `"-Infinity"`.
The claim holds for `INF` and `NAN` alone. -/
theorem php_replace_minus_inf_bug :
    replacePhpValues "-INF" = "-\"Infinity\"" ∧
    hasSubstr "\"-Infinity\"".data (replacePhpValues "-INF").data = false ∧
    replacePhpValues "INF" = "\"Infinity\"" ∧
    replacePhpValues "NAN" = "\"NaN\"" := by
  exact ⟨rfl, rfl, rfl, rfl⟩

/-- C5: in strict mode, `{x:1, y:2}` vs `{y:2, x:1}` is unequal and the
diff list contains an `order_changed` item. -/
theorem json_diff_strict_order_sensitivity :
    (compareJson (.obj [("x", .num 1), ("y", .num 2)])
      (.obj [("y", .num 2), ("x", .num 1)]) .strict).isEqual = false ∧
    ((compareJson (.obj [("x", .num 1), ("y", .num 2)])
      (.obj [("y", .num 2), ("x", .num 1)]) .strict).diffs.any
        (fun d => d.type == DiffType.order_changed)) = true := by
  exact ⟨rfl, rfl⟩

end ClaimTheorems

section DiffProofs

open JsonDiff

/-- Every `JsonValue` has positive size. -/
theorem jsize_pos : ∀ v : JsonValue, 1 ≤ jsize v := by
  intro v
  cases v <;> simp [jsize]

/-- A fold whose step fixes the accumulator is the identity. -/
theorem foldl_fixed {α β : Type} (f : β → α → β) (h : ∀ b a, f b a = b) :
    ∀ (l : List α) (b : β), l.foldl f b = b := by
  intro l
  induction l with
  | nil => intro b; rfl
  | cons x xs ih => intro b; rw [List.foldl_cons, h]; exact ih b

/-- The reporting loop of `checkKeyOrder` emits nothing when the two
common-key orders coincide. -/
theorem checkKeyOrderGo_self (L : List String) (p : String) :
    ∀ (is : List Nat) (d : List DiffItem), checkKeyOrderGo L L p is d = d := by
  intro is
  induction is with
  | nil => intro d; rfl
  | cons i is ih =>
    intro d
    rw [checkKeyOrderGo]
    simp only [ne_eq, not_true_eq_false, if_false]
    exact ih d

/-- `checkKeyOrder` on identical key lists emits nothing. -/
theorem checkKeyOrder_self (keys : List String) (p : String) (d : List DiffItem) :
    checkKeyOrder keys keys p d = d := by
  unfold checkKeyOrder
  exact checkKeyOrderGo_self _ _ _ _

/-- `isEqual` is reflexive on non-container values. -/
theorem isEqualJS_self_prim :
    ∀ v : JsonValue, isObjLike v = false → isEqualJS v v = true := by
  intro v h
  cases v with
  | null => rfl
  | bool b => rw [show isEqualJS (JsonValue.bool b) (JsonValue.bool b) = (b == b) from rfl]; exact beq_self_eq_true b
  | num n => rw [show isEqualJS (JsonValue.num n) (JsonValue.num n) = (n == n) from rfl]; exact beq_self_eq_true n
  | str s => rw [show isEqualJS (JsonValue.str s) (JsonValue.str s) = (s == s) from rfl]; exact beq_self_eq_true s
  | arr l => simp [isObjLike] at h
  | obj l => simp [isObjLike] at h

/-- A value whose tag is neither `object` nor `array` is not object-like. -/
theorem isObjLike_eq_false_of_tags (v : JsonValue) (h1 : getValueType v ≠ "object")
    (h2 : getValueType v ≠ "array") : isObjLike v = false := by
  cases v <;> simp_all [getValueType, isObjLike]

/-- The walker emits nothing when both sides are the same value — at any
fuel, since running out of fuel also emits nothing. -/
theorem compareValuesF_self :
    ∀ (fuel : Nat) (v : JsonValue) (p : String) (m : DiffMode) (d : List DiffItem),
      compareValuesF fuel v v p m d = d := by
  intro fuel
  induction fuel with
  | zero => intro v p m d; rfl
  | succ f ih =>
    intro v p m d
    rw [compareValuesF, if_neg (fun h => h rfl), compareSwitch]
    by_cases h1 : getValueType v = "object"
    · rw [if_pos h1, compareObjectsW]
      have hd1 : (if m = DiffMode.strict then
          checkKeyOrder ((asObjEntries v).map Prod.fst) ((asObjEntries v).map Prod.fst) p d
          else d) = d := by
        cases m with
        | strict => rw [if_pos rfl]; exact checkKeyOrder_self _ _ _
        | loose => rfl
      rw [hd1]
      refine foldl_fixed _ (fun b k => ?_) _ _
      rw [objStep]
      cases hk : lookupKey (asObjEntries v) k with
      | none => rfl
      | some w => exact ih w _ m b
    · rw [if_neg h1]
      by_cases h2 : getValueType v = "array"
      · rw [if_pos h2, compareArraysW]
        refine foldl_fixed _ (fun b i => ?_) _ _
        rw [arrStep]
        cases hk : (asArrElems v).get? i with
        | none => rfl
        | some w => exact ih w _ m b
      · rw [if_neg h2]
        rw [if_pos (isEqualJS_self_prim v (isObjLike_eq_false_of_tags v h1 h2))]

/-- C9: the differ is reflexive in both modes: comparing a value with
itself yields `isEqual = true` and an empty diff list. -/
theorem json_diff_reflexive (a : JsonValue) (mode : DiffMode) :
    (compareJson a a mode).isEqual = true ∧ (compareJson a a mode).diffs = [] := by
  unfold compareJson compareValues
  rw [compareValuesF_self]
  exact ⟨rfl, rfl⟩

/-- C7: whenever the two compared values have different coarse type tags,
the walker appends exactly one `modified` item at that path, carrying both
raw values, and does not recurse — nothing else is emitted. -/
theorem json_diff_type_mismatch_terminal (oldVal newVal : JsonValue) (path : String)
    (mode : DiffMode) (diffs : List DiffItem)
    (h : getValueType oldVal ≠ getValueType newVal) :
    compareValues oldVal newVal path mode diffs =
      diffs ++ [{ path := pathOrRoot path, type := .modified,
                  oldValue := some oldVal, newValue := some newVal }] := by
  unfold compareValues
  obtain ⟨k, hk⟩ : ∃ k, jsize oldVal + jsize newVal = Nat.succ k := by
    have := jsize_pos oldVal
    exact ⟨jsize oldVal + jsize newVal - 1, by omega⟩
  rw [hk, compareValuesF, if_pos h]

/-- C7 witness: the type-mismatch rule applied at `null` vs `true`. -/
theorem json_diff_type_mismatch_terminal_witness :
    getValueType .null ≠ getValueType (.bool true) ∧
    compareValues .null (.bool true) "" .loose [] =
      [] ++ [{ path := pathOrRoot "", type := .modified,
               oldValue := some .null, newValue := some (.bool true) }] :=
  ⟨by decide, json_diff_type_mismatch_terminal .null (.bool true) "" .loose [] (by decide)⟩

end DiffProofs

section DdlProofs

open DdlParser

/-- `parseCreateTable` fails exactly through its two fatal branches. -/
theorem parseCreateTable_err (stmt : String)
    (h : extractTableName stmt.data = none ∨ extractTableContent stmt.data = none) :
    ∃ e, parseCreateTable stmt = .error e := by
  unfold parseCreateTable
  rcases h with h | h
  · rw [h]
    exact ⟨_, rfl⟩
  · cases hn : extractTableName stmt.data with
    | none => exact ⟨_, rfl⟩
    | some n => rw [h]; exact ⟨_, rfl⟩

/-- The statement loop aborts with an error whenever it reaches a
`CREATE TABLE` statement with no extractable name or body. -/
theorem parseDDLGo_err :
    ∀ (stmts : List String) (tables : List (String × TableInfo)) (sidx : List StandaloneIndex),
      (∃ stmt, stmt ∈ stmts ∧ testCreateTable stmt = true ∧
        (extractTableName stmt.data = none ∨ extractTableContent stmt.data = none)) →
      ∃ e, parseDDLGo stmts tables sidx = .error e := by
  intro stmts
  induction stmts with
  | nil =>
    rintro tables sidx ⟨s, hs, -, -⟩
    exact absurd hs (List.not_mem_nil s)
  | cons head rest ih =>
    rintro tables sidx ⟨s, hs, hct, hex⟩
    rw [parseDDLGo]
    rcases List.mem_cons.mp hs with rfl | hs'
    · rw [if_pos hct]
      obtain ⟨e, he⟩ := parseCreateTable_err s hex
      rw [he]
      exact ⟨e, rfl⟩
    · by_cases hh : testCreateTable head = true
      · rw [if_pos hh]
        cases hpct : parseCreateTable head with
        | error e => exact ⟨e, rfl⟩
        | ok t => exact ih _ _ ⟨s, hs', hct, hex⟩
      · rw [if_neg hh]
        by_cases hci : testCreateIndexStmt head = true
        · rw [if_pos hci]
          cases hp : parseCreateIndex head with
          | some si =>
            dsimp only
            split
            · exact ih _ _ ⟨s, hs', hct, hex⟩
            · exact ih _ _ ⟨s, hs', hct, hex⟩
          | none => exact ih _ _ ⟨s, hs', hct, hex⟩
        · rw [if_neg hci]
          exact ih _ _ ⟨s, hs', hct, hex⟩

/-- C8: if any statement of the input matches `CREATE TABLE` but its table
name or parenthesized body cannot be extracted, `parseDDL` returns an
error and no partial result (no tables from earlier statements). -/
theorem ddl_create_table_fatal_abort (ddl stmt : String)
    (h1 : stmt ∈ ddlStatements ddl) (h2 : testCreateTable stmt = true)
    (h3 : extractTableName stmt.data = none ∨ extractTableContent stmt.data = none) :
    ∃ e, parseDDL ddl = .error e := by
  obtain ⟨e, he⟩ := parseDDLGo_err (ddlStatements ddl) [] [] ⟨stmt, h1, h2, h3⟩
  refine ⟨e, ?_⟩
  rw [parseDDL, he]

/-- C8 witness: a well-formed table followed by a bodyless `CREATE TABLE`
aborts the whole call. -/
theorem ddl_create_table_fatal_abort_witness :
    ∃ e, parseDDL "CREATE TABLE a (x int); CREATE TABLE b" = .error e :=
  ddl_create_table_fatal_abort "CREATE TABLE a (x int); CREATE TABLE b" "CREATE TABLE b"
    (by decide) (by decide) (Or.inr (by decide))

end DdlProofs

section LoosePermProofs

open JsonDiff

/-- In an assoc list with unique keys, lookup is invariant under
permutation of the entries. -/
theorem lookupKey_perm :
    ∀ {la lb : List (String × JsonValue)}, List.Perm la lb →
      (la.map Prod.fst).Nodup → ∀ k, lookupKey la k = lookupKey lb k := by
  intro la lb h
  induction h with
  | nil => intro _ k; rfl
  | cons x h ih =>
    intro hnd k
    rw [List.map_cons, List.nodup_cons] at hnd
    simp only [lookupKey]
    rw [ih hnd.2 k]
  | swap x y l =>
    intro hnd k
    rw [List.map_cons, List.map_cons, List.nodup_cons] at hnd
    simp only [lookupKey]
    by_cases h2 : (y.1 == k) = true
    · by_cases h1 : (x.1 == k) = true
      · exfalso
        have e1 : x.1 = k := eq_of_beq h1
        have e2 : y.1 = k := eq_of_beq h2
        exact hnd.1 (by rw [e2, ← e1]; exact List.mem_cons_self _ _)
      · simp [h1, h2]
    · by_cases h1 : (x.1 == k) = true
      · simp [h1, h2]
      · simp [h1, h2]
  | trans h1 h2 ih1 ih2 =>
    intro hnd k
    have hnd2 := ((h1.map Prod.fst).nodup_iff).mp hnd
    rw [ih1 hnd k, ih2 hnd2 k]

/-- In loose mode the walker emits nothing on two objects with pointwise
identical lookups — at any fuel. -/
theorem compareValuesF_obj_loose (fuel : Nat) (la lb : List (String × JsonValue))
    (hl : ∀ k, lookupKey la k = lookupKey lb k) (p : String) (d : List DiffItem) :
    compareValuesF fuel (.obj la) (.obj lb) p .loose d = d := by
  cases fuel with
  | zero => rfl
  | succ f =>
    rw [compareValuesF, if_neg (fun h => h rfl), compareSwitch,
      if_pos (show getValueType (JsonValue.obj la) = "object" from rfl), compareObjectsW]
    refine foldl_fixed _ (fun b k => ?_) _ _
    rw [objStep]
    simp only [asObjEntries]
    rw [← hl k]
    cases hk : lookupKey la k with
    | none => rfl
    | some w => exact compareValuesF_self f w _ _ b

/-- C6: in loose mode, two objects that are permutations of the same
key-value pairs (unique keys) compare as equal. -/
theorem json_diff_loose_permutation_invariance (la lb : List (String × JsonValue))
    (hperm : List.Perm la lb) (hnd : (la.map Prod.fst).Nodup) :
    (compareJson (.obj la) (.obj lb) .loose).isEqual = true := by
  unfold compareJson compareValues
  rw [compareValuesF_obj_loose _ la lb (lookupKey_perm hperm hnd) "" []]
  rfl

/-- C6 witness: `{x:1, y:2}` and `{y:2, x:1}` are loose-equal. -/
theorem json_diff_loose_permutation_invariance_witness :
    (compareJson (.obj [("x", .num 1), ("y", .num 2)])
      (.obj [("y", .num 2), ("x", .num 1)]) .loose).isEqual = true :=
  json_diff_loose_permutation_invariance _ _
    (List.Perm.swap ("y", JsonValue.num 2) ("x", JsonValue.num 1) []) (by decide)

end LoosePermProofs

section NoUnchangedProofs

open JsonDiff

/-- If every fold step only appends items satisfying `P`, so does the
whole fold. -/
theorem foldl_mem_inv {α β : Type} (f : List β → α → List β) (P : β → Prop)
    (hstep : ∀ d a it, it ∈ f d a → it ∈ d ∨ P it) :
    ∀ (l : List α) (d : List β) (it : β), it ∈ l.foldl f d → it ∈ d ∨ P it := by
  intro l
  induction l with
  | nil => intro d it h; exact Or.inl h
  | cons x xs ih =>
    intro d it h
    rcases ih (f d x) it h with h' | h'
    · exact hstep d x it h'
    · exact Or.inr h'

/-- The key-order loop only ever appends `order_changed` items. -/
theorem checkKeyOrderGo_mem (L1 L2 : List String) (p : String) :
    ∀ (is : List Nat) (d : List DiffItem) (it : DiffItem),
      it ∈ checkKeyOrderGo L1 L2 p is d → it ∈ d ∨ it.type = DiffType.order_changed := by
  intro is
  induction is with
  | nil => intro d it h; exact Or.inl h
  | cons i is ih =>
    intro d it h
    rw [checkKeyOrderGo] at h
    rcases ih _ it h with h' | h'
    · dsimp only at h'
      split at h'
      · split at h'
        · split at h'
          · exact Or.inl h'
          · rcases List.mem_append.mp h' with h2 | h2
            · exact Or.inl h2
            · rw [List.mem_singleton.mp h2]; exact Or.inr rfl
        · exact Or.inl h'
      · exact Or.inl h'
    · exact Or.inr h'

/-- `checkKeyOrder` only ever appends `order_changed` items. -/
theorem checkKeyOrder_mem (ok nk : List String) (p : String) (d : List DiffItem) (it : DiffItem)
    (h : it ∈ checkKeyOrder ok nk p d) : it ∈ d ∨ it.type = DiffType.order_changed := by
  unfold checkKeyOrder at h
  exact checkKeyOrderGo_mem _ _ _ _ _ _ h

/-- One object-key step only appends `removed`/`added` items or whatever
the comparator appends. -/
theorem objStep_mem
    (cv : JsonValue → JsonValue → String → DiffMode → List DiffItem → List DiffItem)
    (la lb : List (String × JsonValue)) (p : String) (m : DiffMode)
    (hcv : ∀ (a b : JsonValue) (p' : String) (m' : DiffMode) (d' : List DiffItem) (it : DiffItem),
      it ∈ cv a b p' m' d' → it ∈ d' ∨
        (it.type = DiffType.added ∨ it.type = DiffType.removed ∨
         it.type = DiffType.modified ∨ it.type = DiffType.order_changed)) :
    ∀ (d : List DiffItem) (k : String) (it : DiffItem), it ∈ objStep cv la lb p m d k →
      it ∈ d ∨ (it.type = DiffType.added ∨ it.type = DiffType.removed ∨
                it.type = DiffType.modified ∨ it.type = DiffType.order_changed) := by
  intro d k it h
  rw [objStep] at h
  revert h
  cases hx : lookupKey la k <;> cases hy : lookupKey lb k <;> intro h
  · exact Or.inl h
  · rcases List.mem_append.mp h with h2 | h2
    · exact Or.inl h2
    · rw [List.mem_singleton.mp h2]; exact Or.inr (Or.inl rfl)
  · rcases List.mem_append.mp h with h2 | h2
    · exact Or.inl h2
    · rw [List.mem_singleton.mp h2]; exact Or.inr (Or.inr (Or.inl rfl))
  · exact hcv _ _ _ _ _ _ h

/-- One array-element step only appends `removed`/`added` items or
whatever the comparator appends. -/
theorem arrStep_mem
    (cv : JsonValue → JsonValue → String → DiffMode → List DiffItem → List DiffItem)
    (la lb : List JsonValue) (p : String) (m : DiffMode)
    (hcv : ∀ (a b : JsonValue) (p' : String) (m' : DiffMode) (d' : List DiffItem) (it : DiffItem),
      it ∈ cv a b p' m' d' → it ∈ d' ∨
        (it.type = DiffType.added ∨ it.type = DiffType.removed ∨
         it.type = DiffType.modified ∨ it.type = DiffType.order_changed)) :
    ∀ (d : List DiffItem) (i : Nat) (it : DiffItem), it ∈ arrStep cv la lb p m d i →
      it ∈ d ∨ (it.type = DiffType.added ∨ it.type = DiffType.removed ∨
                it.type = DiffType.modified ∨ it.type = DiffType.order_changed) := by
  intro d i it h
  rw [arrStep] at h
  revert h
  cases hx : la.get? i <;> cases hy : lb.get? i <;> intro h
  · exact Or.inl h
  · rcases List.mem_append.mp h with h2 | h2
    · exact Or.inl h2
    · rw [List.mem_singleton.mp h2]; exact Or.inr (Or.inl rfl)
  · rcases List.mem_append.mp h with h2 | h2
    · exact Or.inl h2
    · rw [List.mem_singleton.mp h2]; exact Or.inr (Or.inr (Or.inl rfl))
  · exact hcv _ _ _ _ _ _ h

/-- Every item the walker appends is `added`, `removed`, `modified` or
`order_changed`. -/
theorem compareValuesF_mem :
    ∀ (fuel : Nat) (o n : JsonValue) (p : String) (m : DiffMode) (d : List DiffItem) (it : DiffItem),
      it ∈ compareValuesF fuel o n p m d →
      it ∈ d ∨ (it.type = DiffType.added ∨ it.type = DiffType.removed ∨
                it.type = DiffType.modified ∨ it.type = DiffType.order_changed) := by
  intro fuel
  induction fuel with
  | zero => intro o n p m d it h; exact Or.inl h
  | succ f ih =>
    intro o n p m d it h
    rw [compareValuesF] at h
    by_cases htag : getValueType o ≠ getValueType n
    · rw [if_pos htag] at h
      rcases List.mem_append.mp h with h2 | h2
      · exact Or.inl h2
      · rw [List.mem_singleton.mp h2]; exact Or.inr (Or.inr (Or.inr (Or.inl rfl)))
    · rw [if_neg htag, compareSwitch] at h
      by_cases h1 : getValueType o = "object"
      · rw [if_pos h1, compareObjectsW] at h
        rcases foldl_mem_inv _ _ (objStep_mem _ _ _ _ _ ih) _ _ it h with h2 | h2
        · split at h2
          · rcases checkKeyOrder_mem _ _ _ _ it h2 with h3 | h3
            · exact Or.inl h3
            · exact Or.inr (Or.inr (Or.inr (Or.inr h3)))
          · exact Or.inl h2
        · exact Or.inr h2
      · rw [if_neg h1] at h
        by_cases h2 : getValueType o = "array"
        · rw [if_pos h2, compareArraysW] at h
          rcases foldl_mem_inv _ _ (arrStep_mem _ _ _ _ _ ih) _ _ it h with h3 | h3
          · exact Or.inl h3
          · exact Or.inr h3
        · rw [if_neg h2] at h
          split at h
          · exact Or.inl h
          · rcases List.mem_append.mp h with h3 | h3
            · exact Or.inl h3
            · rw [List.mem_singleton.mp h3]; exact Or.inr (Or.inr (Or.inr (Or.inl rfl)))

/-- C10: every item of a comparison result is `added`, `removed`,
`modified` or `order_changed` — the `unchanged` member of the enumeration
is never emitted. -/
theorem json_diff_no_unchanged_items (a b : JsonValue) (mode : DiffMode) :
    ∀ it ∈ (compareJson a b mode).diffs,
      (it.type = DiffType.added ∨ it.type = DiffType.removed ∨
       it.type = DiffType.modified ∨ it.type = DiffType.order_changed) ∧
      it.type ≠ DiffType.unchanged := by
  intro it hit
  have hit' : it ∈ compareValuesF (jsize a + jsize b) a b "" mode [] := hit
  rcases compareValuesF_mem (jsize a + jsize b) a b "" mode [] it hit' with h | h
  · exact absurd h (List.not_mem_nil it)
  · refine ⟨h, ?_⟩
    rcases h with h | h | h | h <;> (rw [h]; intro hc; cases hc)

/-- C10 witness: the `modified` item of comparing `1` with `2`. -/
theorem json_diff_no_unchanged_items_witness :
    (DiffType.modified = DiffType.added ∨ DiffType.modified = DiffType.removed ∨
     DiffType.modified = DiffType.modified ∨ DiffType.modified = DiffType.order_changed) ∧
    DiffType.modified ≠ DiffType.unchanged :=
  json_diff_no_unchanged_items (.num 1) (.num 2) .loose
    ⟨"(root)", .modified, some (.num 1), some (.num 2), none, none⟩ (List.Mem.head _)

end NoUnchangedProofs

section AmendedWitness

open PhpParser

/-- C1 witness: one loop step of the four-element example, taken from the
frozen state reached after `'a'` and `5 => 'x'` (position 7, counter 1),
keeps the counter frozen at 1. -/
theorem php_sequential_key_amended_witness :
    (match arrStep (tokenize "['a', 5 => 'x', 'b', 'c']")
        (parseValueF (tokenize "['a', 5 => 'x', 'b', 'c']") 12)
        (.ok ⟨7, [("0", PHPValue.str "a"), ("5", PHPValue.str "x")], false, 1, false⟩) with
     | .ok st' => st'.isIndexedArray = false ∧ st'.index = 1
     | .error _ => True) :=
  php_sequential_key_amended.1 (tokenize "['a', 5 => 'x', 'b', 'c']")
    (parseValueF (tokenize "['a', 5 => 'x', 'b', 'c']") 12)
    ⟨7, [("0", PHPValue.str "a"), ("5", PHPValue.str "x")], false, 1, false⟩ rfl

end AmendedWitness
